import Mathlib

/-!
Shallow embedding of the SLIC superpixel clustering core from src/SLIC.cpp
(class SLIC: seeding, the assign/update loop, orphan recovery, connectivity
enforcement, and the copy constructor), together with theorems settling the
frozen claims about it.

Modelling conventions:
* C++ `double` values are modelled as `ℚ` (exact arithmetic; `DBL_MAX` is the
  exact rational value of the largest finite double).  `sqrt`, which the source
  applies only to residual errors, is threaded through as an abstract function
  parameter `sqrtFn : ℚ → ℚ` so that all definitions stay executable.
* `uchar` pixel channels are `Fin 256`; `unsigned` counters are `ℕ` (with the
  single wrap-around that matters, `iterationNumber - 1` at 0, modelled
  exactly via `u32pred`); `int` values are `ℤ`.
* `tbb::parallel_for` loops are modelled by their sequential in-index-order
  execution; the order sensitivity of the shared-array writes they perform is
  itself the subject of claim C1.
* OpenCV primitives used by orphan recovery (dilate / Canny / findContours /
  moments) are external collaborators per the spec; the list of contour
  moments `(m00, m10, m01)` they produce is a parameter `blobs`.
* The Gaussian generator `RandNormal` (declared outside src/) is modelled as
  an abstract draw sequence `noise : ℕ → ℚ`.
-/

/- The Batteries rational arithmetic operations are marked irreducible, which
blocks the evaluation of the model's exact `double` arithmetic inside
`decide`; they are restored to ordinary definitional transparency here. -/
set_option allowUnsafeReducibility true in
attribute [semireducible] Rat.add Rat.mul Rat.sub Rat.inv

namespace VideoSLIC

/-- Truncation toward zero of a rational, the semantics of a C
`static_cast` from `double` to an integer type. -/
def truncQ (q : ℚ) : ℤ := if 0 ≤ q then ⌊q⌋ else ⌈q⌉

/-- The largest finite IEEE-754 double, `DBL_MAX`, used by the source to reset
the Distance Map and the total residual error.  The literal is the exact
integer value `(2 ^ 53 - 1) * 2 ^ 971` (written out so that it evaluates
without unary-power recursion). -/
def dblMax : ℚ := 179769313486231570814527423731704356798070567525844996598917476803157260780028538760589558632766878171540458953514382464234321326889464182768467546703537516986049910576551282076245490090389328944075868508455133942304583236903222948165808559332123348274797826204144723168738177180919299881250404026184124858368

/-- `UINT_MAX`, the initial value of the gradient minimisation in
`findLowestGradient`. -/
def uintMax : ℤ := 4294967295

/-- `n - 1` on a 32-bit unsigned integer (wraps to `UINT_MAX` at `n = 0`),
as in the source's `iterationNumber - 1`. -/
def u32pred (n : ℕ) : ℕ := (n + 4294967295) % 4294967296

/-- Modelled from the spec: the termination-policy enumeration
`SLICElaborationMode` is declared in SLIC.h, which is not under src/; the spec
names the two recognized policies. -/
inductive SLICElaborationMode where
  | ERROR_THRESHOLD
  | FIXED_ITERATIONS
deriving DecidableEq, Repr

/-- Modelled from the spec: the video temporal-mode enumeration
`VideoElaborationMode` is declared in SLIC.h, which is not under src/; the
spec lists the recognized modes. -/
inductive VideoElaborationMode where
  | INDEPENDENT
  | CONNECTED
  | NOISE
  | KEY_FRAMES
  | KEY_FRAMES_NOISE
  | ADD_SUPERPIXELS
  | ADD_SUPERPIXELS_NOISE
deriving DecidableEq, Repr

open SLICElaborationMode VideoElaborationMode

/-- A `cv::Vec3b` colour triple (three `uchar` channels, L/A/B). -/
structure Color where
  l : Fin 256
  a : Fin 256
  b : Fin 256
deriving DecidableEq, Repr

/-- A `cv::Mat` image of known size: `pix y x` is the `Vec3b` at row `y`,
column `x` (the source's `image.at<Vec3b>(y, x)`). -/
structure Image where
  rows : ℕ
  cols : ℕ
  pix : ℕ → ℕ → Color

/-- The algorithm state of a `SLIC` object: the member fields of class SLIC
that the clustering core reads and writes (debug statistics omitted). -/
structure SLICData where
  pixelsNumber : ℕ
  clustersNumber : ℕ
  samplingStep : ℕ
  spatialDistanceWeight : ℕ
  distanceFactor : ℚ
  errorThreshold : ℚ
  totalResidualError : ℚ
  framesNumber : ℕ
  iterationIndex : ℕ
  pixelCluster : List ℤ
  distanceFromClusterCentre : List ℚ
  pixelReachedByClusters : List ℕ
  clusterCentres : List ℚ
  previousClusterCentres : List ℚ
  pixelsOfSameCluster : List ℕ
  residualError : List ℚ
deriving Repr

/-- `SLIC::clearSLICData`: zero the scalar variables and erase the centre
matrices.  (`pixelCluster` and `distanceFromClusterCentre` clears are
commented out in the source, and `pixelReachedByClusters` is not touched.) -/
def clearSLICData (st : SLICData) : SLICData :=
  { st with
    iterationIndex := 0
    clustersNumber := 0
    pixelsNumber := 0
    samplingStep := 0
    spatialDistanceWeight := 0
    distanceFactor := 0
    totalResidualError := 0
    errorThreshold := 0
    framesNumber := 0
    clusterCentres := []
    previousClusterCentres := []
    pixelsOfSameCluster := []
    residualError := [] }

/-- The branch condition at the top of `SLIC::initializeSLICData` choosing a
full reseed over reuse of the previous frame's data. -/
def reseedCondition (videoMode : VideoElaborationMode) (keyFramesRatio : ℕ)
    (connectedFrames : Bool) (st : SLICData) : Bool :=
  !connectedFrames || st.clusterCentres.length == 0 ||
  (((videoMode == KEY_FRAMES) || (videoMode == KEY_FRAMES_NOISE)) &&
    (st.framesNumber % keyFramesRatio == 0)) ||
  (((videoMode == ADD_SUPERPIXELS) || (videoMode == ADD_SUPERPIXELS_NOISE)) &&
    (st.clustersNumber > 1300))

/-- The sampled grid coordinates along one axis:
`for (int t = S; t < limit; t += S)`. -/
def sampleCoords (limit S : ℕ) : List ℕ :=
  (List.range ((limit - 1) / S)).map (fun k => (k + 1) * S)

/-- The grid points visited by the seeding double loop of
`initializeSLICData`, `y` outer and `x` inner, as `(x, y)` pairs. -/
def gridPoints (img : Image) (S : ℕ) : List (ℕ × ℕ) :=
  (sampleCoords img.rows S).flatMap (fun y =>
    (sampleCoords img.cols S).map (fun x => (x, y)))

/-- The gradient computed inside `SLIC::findLowestGradient` at `(x, y)`:
horizontal plus vertical squared first-channel differences.  (The callers
keep `x ± 1`, `y ± 1` inside the image.) -/
def gradientAt (img : Image) (x y : ℤ) : ℤ :=
  (((img.pix y.toNat (x + 1).toNat).l : ℤ) - ((img.pix y.toNat (x - 1).toNat).l : ℤ)) *
    (((img.pix y.toNat (x + 1).toNat).l : ℤ) - ((img.pix y.toNat (x - 1).toNat).l : ℤ)) +
  (((img.pix (y - 1).toNat x.toNat).l : ℤ) - ((img.pix (y + 1).toNat x.toNat).l : ℤ)) *
    (((img.pix (y - 1).toNat x.toNat).l : ℤ) - ((img.pix (y + 1).toNat x.toNat).l : ℤ))

/-- One axis of the 3×3 search of `findLowestGradient`: the loop
`for (t = c-1; t <= c+1 && t < limit-1; ++t)` (the second conjunct cuts the
tail of the increasing range, so it acts as a filter). -/
def fLGRange (c : ℤ) (limit : ℕ) : List ℤ :=
  [c - 1, c, c + 1].filter (fun t => t < (limit : ℤ) - 1)

/-- The candidate pixels scanned by `findLowestGradient`, in loop order
(`y` outer, `x` inner), with the `x < 1 || y < 1` border `continue` applied. -/
def fLGCandidates (img : Image) (cx cy : ℤ) : List (ℤ × ℤ) :=
  (fLGRange cy img.rows).flatMap (fun y =>
    (fLGRange cx img.cols).filterMap (fun x =>
      if 1 ≤ x ∧ 1 ≤ y then some (x, y) else none))

/-- `SLIC::findLowestGradient`: strict-minimum scan over the candidates,
starting from `UINT_MAX` and the grid point itself. -/
def findLowestGradient (img : Image) (cx cy : ℤ) : ℤ × ℤ :=
  ((fLGCandidates img cx cy).foldl
    (fun best q =>
      if gradientAt img q.1 q.2 < best.1 then (gradientAt img q.1 q.2, q) else best)
    (uintMax, (cx, cy))).2

/-- The five values `[L, A, B, x, y]` pushed for the centre seeded at grid
point `gp` by `initializeSLICData`. -/
def centreBlock (img : Image) (gp : ℕ × ℕ) : List ℚ :=
  let p := findLowestGradient img (gp.1 : ℤ) (gp.2 : ℤ)
  let c := img.pix p.2.toNat p.1.toNat
  [((c.l : ℕ) : ℚ), ((c.a : ℕ) : ℚ), ((c.b : ℕ) : ℚ), ((p.1 : ℤ) : ℚ), ((p.2 : ℤ) : ℚ)]

/-- The full centres vector produced by the seeding loop. -/
def seedCentres (img : Image) (S : ℕ) : List ℚ :=
  (gridPoints img S).flatMap (centreBlock img)

/-- One centre's jitter in the Gaussian-noise loop of `initializeSLICData`:
`clusterCentres[5n+3] += randomGen(); clusterCentres[5n+4] += randomGen();`,
consuming draws `2i` and `2i+1`.  Only the two position fields are touched;
the three colour fields of the block are not read or written. -/
def noiseStep (noise : ℕ → ℚ) (l : List ℚ) (i : ℕ) : List ℚ :=
  let l1 := l.set (5 * i + 3) (l.getD (5 * i + 3) 0 + noise (2 * i))
  l1.set (5 * i + 4) (l1.getD (5 * i + 4) 0 + noise (2 * i + 1))

/-- The Gaussian-jitter loop of `initializeSLICData` (noise video modes)
over all reused centres. -/
def addPositionNoise (cs : List ℚ) (n : ℕ) (noise : ℕ → ℚ) : List ℚ :=
  (List.range n).foldl (noiseStep noise) cs

/-- `SLIC::initializeSLICData`.  On a reseed the state is rebuilt from the
image; otherwise, in the noise modes, position jitter is added to the reused
centres.  In either case the total residual error is reset to `DBL_MAX` and,
in the ADD_SUPERPIXELS modes, the Reached Mask is reset to 255. -/
def initSLICData (img : Image) (S W : ℕ) (errThr : ℚ)
    (videoMode : VideoElaborationMode) (keyFramesRatio : ℕ) (noise : ℕ → ℚ)
    (connectedFrames : Bool) (st : SLICData) : SLICData :=
  let st1 :=
    if reseedCondition videoMode keyFramesRatio connectedFrames st then
      let reached0 :=
        if st.clusterCentres.length == 0 then ([] : List ℕ)
        else st.pixelReachedByClusters
      let base := clearSLICData st
      let pixels := img.rows * img.cols
      let centres := seedCentres img S
      let n := (gridPoints img S).length
      { base with
        pixelsNumber := pixels
        samplingStep := S
        spatialDistanceWeight := W
        distanceFactor := ((W : ℚ) * (W : ℚ)) / ((S : ℚ) * (S : ℚ))
        errorThreshold := errThr
        pixelCluster := List.replicate pixels (-1)
        pixelReachedByClusters := reached0
        distanceFromClusterCentre := List.replicate pixels dblMax
        clusterCentres := centres
        previousClusterCentres := centres
        pixelsOfSameCluster := List.replicate n 0
        residualError := List.replicate n 0
        clustersNumber := n }
    else if videoMode == NOISE || videoMode == KEY_FRAMES_NOISE ||
        videoMode == ADD_SUPERPIXELS_NOISE then
      { st with clusterCentres := addPositionNoise st.clusterCentres st.clustersNumber noise }
    else st
  let st2 := { st1 with totalResidualError := dblMax }
  if videoMode == ADD_SUPERPIXELS || videoMode == ADD_SUPERPIXELS_NOISE then
    { st2 with pixelReachedByClusters := List.replicate st2.pixelsNumber 255 }
  else st2

/-- `SLIC::computeDistance`: colour distance plus `distanceFactor` times
spatial distance, read from the flat centres vector at block `centreIndex`. -/
def computeDistance (cs : List ℚ) (distanceFactor : ℚ) (ci : ℕ) (px py : ℤ)
    (pc : Color) : ℚ :=
  let colorDistance :=
    (cs.getD (5 * ci) 0 - ((pc.l : ℕ) : ℚ)) * (cs.getD (5 * ci) 0 - ((pc.l : ℕ) : ℚ)) +
    (cs.getD (5 * ci + 1) 0 - ((pc.a : ℕ) : ℚ)) * (cs.getD (5 * ci + 1) 0 - ((pc.a : ℕ) : ℚ)) +
    (cs.getD (5 * ci + 2) 0 - ((pc.b : ℕ) : ℚ)) * (cs.getD (5 * ci + 2) 0 - ((pc.b : ℕ) : ℚ))
  let spaceDistance :=
    (cs.getD (5 * ci + 3) 0 - (px : ℚ)) * (cs.getD (5 * ci + 3) 0 - (px : ℚ)) +
    (cs.getD (5 * ci + 4) 0 - (py : ℚ)) * (cs.getD (5 * ci + 4) 0 - (py : ℚ))
  colorDistance + distanceFactor * spaceDistance

/-- The window coordinates scanned along one axis by the assignment step:
`for (int t = static_cast<int>(c) - S - 1; t < c + S + 1; ++t)` where `c` is
a `double` centre coordinate. -/
def windowCoords (c : ℚ) (S : ℕ) : List ℤ :=
  let lo : ℤ := truncQ c - S - 1
  (List.range (⌈c + S + 1⌉ - lo).toNat).map (fun k => lo + k)

/-- The visit of one window cell `(x, y)` by centre `ci` during the
assignment step (the innermost body of the `tbb::parallel_for` at the top of
the `createSuperpixels` loop): skip out-of-bounds coordinates, mark the pixel
reached in the ADD_SUPERPIXELS modes, and overwrite the pixel's Distance and
Assignment Map entries exactly when the computed distance is strictly
smaller than its current Distance Map entry.  The accumulator is
`(pixelCluster, distanceFromClusterCentre, pixelReachedByClusters)`. -/
def assignVisit (img : Image) (markReached : Bool) (cs : List ℚ) (f : ℚ)
    (ci : ℕ) (x y : ℤ) (acc : List ℤ × List ℚ × List ℕ) :
    List ℤ × List ℚ × List ℕ :=
  if 0 ≤ x ∧ x < (img.cols : ℤ) ∧ 0 ≤ y ∧ y < (img.rows : ℤ) then
    let p := y.toNat * img.cols + x.toNat
    let d := computeDistance cs f ci x y (img.pix y.toNat x.toNat)
    let reached2 := if markReached then acc.2.2.set p 0 else acc.2.2
    if d < acc.2.1.getD p 0 then
      (acc.1.set p (ci : ℤ), acc.2.1.set p d, reached2)
    else (acc.1, acc.2.1, reached2)
  else acc

/-- One centre's pass of the assignment step: scan the `(2S+2)×(2S+2)` window
around centre `ci`, `y` outer and `x` inner. -/
def assignCentrePass (img : Image) (S : ℕ) (markReached : Bool) (cs : List ℚ)
    (f : ℚ) (ci : ℕ) (acc : List ℤ × List ℚ × List ℕ) :
    List ℤ × List ℚ × List ℕ :=
  (windowCoords (cs.getD (5 * ci + 4) 0) S).foldl (fun acc1 y =>
    (windowCoords (cs.getD (5 * ci + 3) 0) S).foldl (fun acc2 x =>
      assignVisit img markReached cs f ci x y acc2) acc1) acc

/-- The assignment step executed with an explicit centre processing order
(the source's `tbb::parallel_for` admits any interleaving of the unsynchronized
shared-array writes; a processing order is its sequential projection). -/
def assignmentOrder (img : Image) (S : ℕ) (markReached : Bool) (cs : List ℚ)
    (f : ℚ) (order : List ℕ) (pc : List ℤ) (dist : List ℚ) (reached : List ℕ) :
    List ℤ × List ℚ × List ℕ :=
  order.foldl (fun a ci => assignCentrePass img S markReached cs f ci a)
    (pc, dist, reached)

/-- The image pixels in row-major scan order, as `(x, y)` pairs. -/
def pixelScan (img : Image) : List (ℕ × ℕ) :=
  (List.range img.rows).flatMap (fun y =>
    (List.range img.cols).map (fun x => (x, y)))

/-- The accumulation half of the update step (shared verbatim between the
`createSuperpixels` loop and the tail of `enforceConnectivity`): for every
pixel with a valid assignment, add its colour and position into its centre's
accumulators and bump that centre's pixel count. -/
def accumulateCentres (img : Image) (pc : List ℤ) (cs : List ℚ)
    (counts : List ℕ) : List ℚ × List ℕ :=
  (pixelScan img).foldl (fun acc q =>
    let i := q.2 * img.cols + q.1
    let cpc := pc.getD i (-1)
    if cpc ≠ -1 then
      let c := cpc.toNat
      let col := img.pix q.2 q.1
      let cs1 := acc.1.set (5 * c) (acc.1.getD (5 * c) 0 + ((col.l : ℕ) : ℚ))
      let cs2 := cs1.set (5 * c + 1) (cs1.getD (5 * c + 1) 0 + ((col.a : ℕ) : ℚ))
      let cs3 := cs2.set (5 * c + 2) (cs2.getD (5 * c + 2) 0 + ((col.b : ℕ) : ℚ))
      let cs4 := cs3.set (5 * c + 3) (cs3.getD (5 * c + 3) 0 + (q.1 : ℚ))
      let cs5 := cs4.set (5 * c + 4) (cs4.getD (5 * c + 4) 0 + (q.2 : ℚ))
      (cs5, acc.2.set c (acc.2.getD c 0 + 1))
    else acc) (cs, counts)

/-- Normalization of a single centre (one body of the normalization
`tbb::parallel_for`, shared verbatim between the update step and
`enforceConnectivity`): if the centre's pixel count is non-zero, divide its
five accumulated fields by that count in place; an empty centre is left
untouched — its accumulated values stay as they are and no division by the
zero count is performed. -/
def normalizeStep (counts : List ℕ) (l : List ℚ) (ci : ℕ) : List ℚ :=
  if counts.getD ci 0 ≠ 0 then
    let l0 := l.set (5 * ci) (l.getD (5 * ci) 0 / (counts.getD ci 0 : ℚ))
    let l1 := l0.set (5 * ci + 1) (l0.getD (5 * ci + 1) 0 / (counts.getD ci 0 : ℚ))
    let l2 := l1.set (5 * ci + 2) (l1.getD (5 * ci + 2) 0 / (counts.getD ci 0 : ℚ))
    let l3 := l2.set (5 * ci + 3) (l2.getD (5 * ci + 3) 0 / (counts.getD ci 0 : ℚ))
    l3.set (5 * ci + 4) (l3.getD (5 * ci + 4) 0 / (counts.getD ci 0 : ℚ))
  else l

/-- The normalization half of the update step over all centres. -/
def normalizeCentres (cs : List ℚ) (counts : List ℕ) (n : ℕ) : List ℚ :=
  (List.range n).foldl (normalizeStep counts) cs

/-- Copy the first `k` entries of `src` over `dst` (the
`previousClusterCentres[i] = clusterCentres[i]` loops). -/
def copyFirst (k : ℕ) (src dst : List ℚ) : List ℚ :=
  (List.range k).foldl (fun l i => l.set i (src.getD i 0)) dst

/-- The orphan-recovery trigger at the bottom of the `createSuperpixels` loop
body: ADD_SUPERPIXELS mode, the termination test about to pass (error
strictly below threshold under ERROR_THRESHOLD, or iteration index at least
`iterationNumber - 1` under FIXED_ITERATIONS, with unsigned wrap at 0), and
some pixel never reached by any centre's window. -/
def orphanCondition (iterationNumber : ℕ) (errThr : ℚ)
    (SLICMode : SLICElaborationMode) (videoMode : VideoElaborationMode)
    (st : SLICData) : Bool :=
  (videoMode == ADD_SUPERPIXELS || videoMode == ADD_SUPERPIXELS_NOISE) &&
  ((decide (st.totalResidualError < errThr) && (SLICMode == ERROR_THRESHOLD)) ||
   (decide (st.iterationIndex ≥ u32pred iterationNumber) &&
     (SLICMode == FIXED_ITERATIONS))) &&
  st.pixelReachedByClusters.any (fun u => u == 255)

/-- The centre-spawning loop of orphan recovery: for each contour moment
triple `(m00, m10, m01)` delivered by the external blob primitive, skip it if
`m00 = 0`, otherwise append a zero-colour centre at the centroid
`(m10/m00, m01/m00)` to both centre stores and grow the cluster count. -/
def spawnCentres (blobs : List (ℚ × ℚ × ℚ)) (st : SLICData) : SLICData :=
  blobs.foldl (fun s m =>
    if m.1 = 0 then s
    else
      { s with
        clusterCentres := s.clusterCentres ++ [0, 0, 0, m.2.1 / m.1, m.2.2 / m.1]
        previousClusterCentres :=
          s.previousClusterCentres ++ [0, 0, 0, m.2.1 / m.1, m.2.2 / m.1]
        pixelsOfSameCluster := s.pixelsOfSameCluster ++ [0]
        residualError := s.residualError ++ [0]
        clustersNumber := s.clustersNumber + 1 }) st

/-- The result of one `do`-loop body execution in `createSuperpixels`. -/
structure IterationResult where
  state : SLICData
  go : Bool
  invoked : Bool
deriving Repr

/-- The assignment and update half of one `createSuperpixels` loop body:
reset distances, assignment step over all centres in index order, update step
(zeroed accumulators, accumulation, normalization), and the previous-centre /
residual-error bookkeeping (skipped on the first iteration of a frame). -/
def updatePhase (img : Image) (S : ℕ) (videoMode : VideoElaborationMode)
    (sqrtFn : ℚ → ℚ) (st : SLICData) : SLICData :=
  let n := st.clustersNumber
  let markReached := videoMode == ADD_SUPERPIXELS || videoMode == ADD_SUPERPIXELS_NOISE
  let a := assignmentOrder img S markReached st.clusterCentres st.distanceFactor
    (List.range n) st.pixelCluster (List.replicate st.pixelsNumber dblMax)
    st.pixelReachedByClusters
  let acc := accumulateCentres img a.1 (List.replicate (5 * n) 0) (List.replicate n 0)
  let cs := normalizeCentres acc.1 acc.2 n
  let st1 := { st with
    pixelCluster := a.1
    distanceFromClusterCentre := a.2.1
    pixelReachedByClusters := a.2.2
    clusterCentres := cs
    pixelsOfSameCluster := acc.2 }
  if st.iterationIndex == 0 then
    { st1 with previousClusterCentres := copyFirst (5 * n) cs st.previousClusterCentres }
  else
    let res := (List.range n).foldl (fun r ci =>
      r.set ci (sqrtFn (
        (cs.getD (5 * ci + 4) 0 - st.previousClusterCentres.getD (5 * ci + 4) 0) *
        (cs.getD (5 * ci + 4) 0 - st.previousClusterCentres.getD (5 * ci + 4) 0) +
        (cs.getD (5 * ci + 3) 0 - st.previousClusterCentres.getD (5 * ci + 3) 0) *
        (cs.getD (5 * ci + 3) 0 - st.previousClusterCentres.getD (5 * ci + 3) 0))))
      st.residualError
    let total := ((List.range n).foldl (fun t ci => t + res.getD ci 0) 0) / (n : ℚ)
    { st1 with
      residualError := res
      previousClusterCentres := copyFirst (5 * n) cs st.previousClusterCentres
      totalResidualError := total }

/-- The tail of one `createSuperpixels` loop body: the orphan-recovery branch
(which leaves `go` unchanged, while the `else` branch sets it) followed by
the iteration-index increment. -/
def orphanPhase (iterationNumber : ℕ) (errThr : ℚ)
    (SLICMode : SLICElaborationMode) (videoMode : VideoElaborationMode)
    (blobs : List (ℚ × ℚ × ℚ)) (st2 : SLICData) (go : Bool) : IterationResult :=
  let invoked := orphanCondition iterationNumber errThr SLICMode videoMode st2
  let st3 := if invoked then spawnCentres blobs st2 else st2
  let go' := if invoked then go else true
  ⟨{ st3 with iterationIndex := st3.iterationIndex + 1 }, go', invoked⟩

/-- One body execution of the `do ... while` loop of `createSuperpixels`. -/
def iterationStep (img : Image) (S : ℕ) (iterationNumber : ℕ) (errThr : ℚ)
    (SLICMode : SLICElaborationMode) (videoMode : VideoElaborationMode)
    (sqrtFn : ℚ → ℚ) (blobs : List (ℚ × ℚ × ℚ)) (st : SLICData) (go : Bool) :
    IterationResult :=
  orphanPhase iterationNumber errThr SLICMode videoMode blobs
    (updatePhase img S videoMode sqrtFn st) go

/-- The `while` condition of the `createSuperpixels` loop. -/
def loopCondition (iterationNumber : ℕ) (errThr : ℚ)
    (SLICMode : SLICElaborationMode) (st : SLICData) (go : Bool) : Bool :=
  ((decide (st.totalResidualError > errThr) && (SLICMode == ERROR_THRESHOLD)) ||
   (decide (st.iterationIndex < iterationNumber) && (SLICMode == FIXED_ITERATIONS))) && go

/-- The `do ... while` loop of `createSuperpixels`, with fuel bounding the
number of body executions (the body runs at least once for positive fuel,
and the loop is re-entered only while the condition holds). -/
def createLoop (img : Image) (S : ℕ) (iterationNumber : ℕ) (errThr : ℚ)
    (SLICMode : SLICElaborationMode) (videoMode : VideoElaborationMode)
    (sqrtFn : ℚ → ℚ) (blobs : List (ℚ × ℚ × ℚ)) :
    ℕ → SLICData → Bool → SLICData
  | 0, st, _ => st
  | fuel + 1, st, go =>
    let r := iterationStep img S iterationNumber errThr SLICMode videoMode sqrtFn blobs st go
    if loopCondition iterationNumber errThr SLICMode r.state r.go then
      createLoop img S iterationNumber errThr SLICMode videoMode sqrtFn blobs fuel r.state r.go
    else r.state

/-- `SLIC::createSuperpixels`: initialize the frame's data, run the
assign/update loop, and count the completed frame. -/
def createSuperpixels (fuel : ℕ) (img : Image) (S W iterationNumber : ℕ)
    (errThr : ℚ) (SLICMode : SLICElaborationMode)
    (videoMode : VideoElaborationMode) (keyFramesRatio : ℕ) (noise : ℕ → ℚ)
    (connectedFrames : Bool) (sqrtFn : ℚ → ℚ) (blobs : List (ℚ × ℚ × ℚ))
    (st : SLICData) : SLICData :=
  let st0 := initSLICData img S W errThr videoMode keyFramesRatio noise connectedFrames st
  let st1 := { st0 with iterationIndex := 0 }
  let stF := createLoop img S iterationNumber errThr SLICMode videoMode sqrtFn blobs fuel st1 false
  { stF with framesNumber := stF.framesNumber + 1 }

/-- The `clustersAverageSize` computation of `enforceConnectivity`:
`static_cast<unsigned>(pixelsNumber / clustersNumber + 0.5)` — an unsigned
integer division, then `+ 0.5` in `double`, then truncation back. -/
def clustersAverageSize (pixels n : ℕ) : ℕ :=
  (truncQ (((pixels / n : ℕ) : ℚ) + 1 / 2)).toNat

/-- Bounds check `x >= 0 && x < cols && y >= 0 && y < rows` used throughout
the relabeling pass. -/
def inBoundsI (img : Image) (x y : ℤ) : Prop :=
  0 ≤ x ∧ x < (img.cols : ℤ) ∧ 0 ≤ y ∧ y < (img.rows : ℤ)

instance (img : Image) (x y : ℤ) : Decidable (inBoundsI img x y) := by
  unfold inBoundsI; infer_instance

/-- Flat index `y * cols + x` of an in-bounds pixel. -/
def idxI (img : Image) (x y : ℤ) : ℕ := y.toNat * img.cols + x.toNat

/-- One row of the adjacent-cluster search of `enforceConnectivity`: the
inner `tempX` loop `break`s at the first in-bounds neighbour already labeled
in `newPixelCluster`, so only that row's first hit is kept. -/
def rowFirstHit (img : Image) (npc : List ℤ) (y x : ℤ) : Option ℤ :=
  ([x - 1, x, x + 1].filterMap (fun t =>
    if inBoundsI img t y ∧ npc.getD (idxI img t y) (-1) ≠ -1 then
      some (npc.getD (idxI img t y) (-1))
    else none)).head?

/-- The full adjacent-cluster search: the `break` leaves the outer `tempY`
loop running, so each row's first hit overwrites the previous value of
`adjacentCluster` (which persists across segments, initially 0). -/
def findAdjacent (img : Image) (npc : List ℤ) (x y : ℤ) (adj : ℤ) : ℤ :=
  [y - 1, y, y + 1].foldl (fun a ty => (rowFirstHit img npc ty x).getD a) adj

/-- The nine neighbour offsets visited by the segment-growing loops, in
source order (`tempY` outer from `-1`, `tempX` inner from `-1`). -/
def neighborsOf (q : ℕ × ℕ) : List (ℤ × ℤ) :=
  [(-1, -1), (0, -1), (1, -1), (-1, 0), (0, 0), (1, 0), (-1, 1), (0, 1), (1, 1)].map
    (fun d => ((q.1 : ℤ) + d.1, (q.2 : ℤ) + d.2))

/-- Expansion around one segment pixel: append every in-bounds neighbour that
is still unlabeled and belongs to the origin pixel's cluster, labeling it. -/
def growNeighbors (img : Image) (pc : List ℤ) (orig : ℤ) (q : ℕ × ℕ)
    (acc : List (ℕ × ℕ) × List ℤ) : List (ℕ × ℕ) × List ℤ :=
  (neighborsOf q).foldl (fun a r =>
    if inBoundsI img r.1 r.2 ∧ a.2.getD (idxI img r.1 r.2) (-1) = -1 ∧
        pc.getD (idxI img r.1 r.2) (-1) = orig then
      (a.1 ++ [(r.1.toNat, r.2.toNat)], a.2.set (idxI img r.1 r.2) orig)
    else a) acc

/-- The segment-growing loop `for (unsigned c = 0; c < count; ++c)` over the
growing `pixelSegment`.  When the origin cluster is a valid label every grown
pixel is freshly labeled, so the loop runs at most `pixelsNumber` times and
the fuel `rows*cols + 1` used at the call site is exact; on an unassigned
origin (`-1`) the source loop never terminates and the fueled model stops. -/
def growLoop (img : Image) (pc : List ℤ) (orig : ℤ) :
    ℕ → ℕ → List (ℕ × ℕ) → List ℤ → List (ℕ × ℕ) × List ℤ
  | 0, _, seg, npc => (seg, npc)
  | fuel + 1, c, seg, npc =>
    if h : c < seg.length then
      let a := growNeighbors img pc orig (seg.get ⟨c, h⟩) (seg, npc)
      growLoop img pc orig fuel (c + 1) a.1 a.2
    else (seg, npc)

/-- The body of the relabeling double loop of `enforceConnectivity` for one
scan pixel: if still unlabeled, start a segment, record a fallback adjacent
cluster, grow the segment, and relabel it to the fallback when its pixel
count is at most the threshold.  The accumulator is
`(newPixelCluster, adjacentCluster, merge fired so far)`. -/
def processPixel (img : Image) (pc : List ℤ) (thr : ℕ)
    (acc : List ℤ × ℤ × Bool) (q : ℕ × ℕ) : List ℤ × ℤ × Bool :=
  let i := q.2 * img.cols + q.1
  if acc.1.getD i (-1) = -1 then
    let orig := pc.getD i (-1)
    let npc1 := acc.1.set i orig
    let adj1 := findAdjacent img npc1 (q.1 : ℤ) (q.2 : ℤ) acc.2.1
    let g := growLoop img pc orig (img.rows * img.cols + 1) 0 [q] npc1
    if g.1.length ≤ thr then
      (g.1.foldl (fun l r => l.set (r.2 * img.cols + r.1) adj1) g.2, adj1, true)
    else (g.2, adj1, acc.2.2)
  else acc

/-- The complete relabeling pass of `enforceConnectivity`, returning the new
assignment together with whether any segment was merged. -/
def enforceRelabel (img : Image) (pc : List ℤ) (pixels n : ℕ) :
    List ℤ × ℤ × Bool :=
  (pixelScan img).foldl (processPixel img pc (clustersAverageSize pixels n / 4))
    (List.replicate pixels (-1), 0, false)

/-- `SLIC::enforceConnectivity`: relabeling pass, copy of the new labels into
the Assignment Map, and recomputation of the cluster centres exactly as in
the update step (zeroing, accumulation, normalization). -/
def enforceConnectivity (img : Image) (st : SLICData) : SLICData :=
  let r := enforceRelabel img st.pixelCluster st.pixelsNumber st.clustersNumber
  let pc' := (List.range st.pixelsNumber).foldl
    (fun l m => l.set m (r.1.getD m (-1))) st.pixelCluster
  let n := st.clustersNumber
  let cs0 := (List.range (5 * n)).foldl (fun l i => l.set i 0) st.clusterCentres
  let counts0 := (List.range n).foldl (fun l i => l.set i 0) st.pixelsOfSameCluster
  let acc := accumulateCentres img pc' cs0 counts0
  { st with
    pixelCluster := pc'
    clusterCentres := normalizeCentres acc.1 acc.2 n
    pixelsOfSameCluster := acc.2 }

/-- The element accesses performed by the copy constructor
`SLIC::SLIC(const SLIC&)` after its `resize` calls, checked against the
vector sizes they actually have at that point: the destination is a fresh
object whose vectors are all empty before the constructor body, and the body
resizes every vector except `pixelReachedByClusters`.  Returns `true` iff
every read and write of the three copy loops is in bounds. -/
def copyCtorAccessesInBounds (src : SLICData) : Bool :=
  let destPixelClusterLen := src.pixelsNumber
  let destDistanceLen := src.pixelsNumber
  let destReachedLen := 0
  let destCentresLen := src.clusterCentres.length
  let destPrevCentresLen := src.previousClusterCentres.length
  let destCountsLen := src.pixelsOfSameCluster.length
  let destResidualLen := src.residualError.length
  (List.range src.pixelsNumber).all (fun m =>
    m < destPixelClusterLen && m < src.pixelCluster.length &&
    m < destReachedLen && m < src.pixelReachedByClusters.length &&
    m < destDistanceLen && m < src.distanceFromClusterCentre.length) &&
  (List.range src.clustersNumber).all (fun m =>
    m < destCountsLen && m < src.pixelsOfSameCluster.length &&
    m < destResidualLen && m < src.residualError.length) &&
  (List.range (5 * src.clustersNumber)).all (fun m =>
    m < destCentresLen && m < src.clusterCentres.length &&
    m < destPrevCentresLen && m < src.previousClusterCentres.length)

/-! ### General helper lemmas -/

theorem foldl_preserve {α σ : Type _} {P : σ → Prop} {f : σ → α → σ}
    (h : ∀ s a, P s → P (f s a)) :
    ∀ (l : List α) (s : σ), P s → P (l.foldl f s)
  | [], _, hs => hs
  | a :: t, s, hs => foldl_preserve h t (f s a) (h s a hs)

theorem foldl_preserve_mem {α σ : Type _} {P : σ → Prop} {f : σ → α → σ} :
    ∀ (l : List α), (∀ a ∈ l, ∀ s, P s → P (f s a)) →
      ∀ s, P s → P (l.foldl f s)
  | [], _, _, hs => hs
  | a :: t, h, s, hs =>
    foldl_preserve_mem t (fun b hb s' hs' => h b (List.mem_cons_of_mem a hb) s' hs')
      (f s a) (h a (List.mem_cons_self a t) s hs)

theorem getD_set_self {α : Type _} {l : List α} {i : ℕ} {v d : α}
    (h : i < l.length) : (l.set i v).getD i d = v := by
  simp [List.getD_eq_getElem?_getD, List.getElem?_set_self h]

theorem getD_set_ne {α : Type _} {l : List α} {i j : ℕ} {v d : α}
    (h : i ≠ j) : (l.set i v).getD j d = l.getD j d := by
  simp [List.getD_eq_getElem?_getD, List.getElem?_set_ne h]

theorem getD_set_or {α : Type _} {l : List α} {i j : ℕ} {v d : α} :
    (l.set i v).getD j d = l.getD j d ∨ (l.set i v).getD j d = v := by
  rcases eq_or_ne i j with rfl | h
  · by_cases hl : i < l.length
    · exact Or.inr (getD_set_self hl)
    · left; rw [List.set_eq_of_length_le (Nat.le_of_not_lt hl)]
  · exact Or.inl (getD_set_ne h)

/-- The validity predicate of claim C2: every Assignment Map entry is the
unassigned sentinel or a valid cluster index below `n`. -/
def pcEntriesValid (n : ℕ) (pc : List ℤ) : Prop :=
  ∀ v ∈ pc, v = -1 ∨ (0 ≤ v ∧ v < (n : ℤ))

instance (n : ℕ) (pc : List ℤ) : Decidable (pcEntriesValid n pc) := by
  unfold pcEntriesValid
  infer_instance

theorem pcEntriesValid_getD {n : ℕ} {pc : List ℤ} (h : pcEntriesValid n pc)
    (i : ℕ) :
    pc.getD i (-1) = -1 ∨ (0 ≤ pc.getD i (-1) ∧ pc.getD i (-1) < (n : ℤ)) := by
  by_cases hi : i < pc.length
  · have hv : pc.getD i (-1) = pc[i] := by
      rw [List.getD_eq_getElem?_getD, List.getElem?_eq_getElem hi]
      rfl
    rw [hv]
    exact h _ (List.getElem_mem hi)
  · rw [List.getD_eq_getElem?_getD, List.getElem?_eq_none (Nat.le_of_not_lt hi)]
    exact Or.inl rfl

theorem pcEntriesValid_set {n : ℕ} {pc : List ℤ} (h : pcEntriesValid n pc)
    {i : ℕ} {v : ℤ} (hv : v = -1 ∨ (0 ≤ v ∧ v < (n : ℤ))) :
    pcEntriesValid n (pc.set i v) := by
  intro w hw
  rcases List.mem_or_eq_of_mem_set hw with hmem | rfl
  · exact h w hmem
  · exact hv

theorem pcEntriesValid_mono {n n' : ℕ} (hnn : n ≤ n') {pc : List ℤ}
    (h : pcEntriesValid n pc) : pcEntriesValid n' pc := by
  intro v hv
  rcases h v hv with h1 | ⟨h2, h3⟩
  · exact Or.inl h1
  · exact Or.inr ⟨h2, lt_of_lt_of_le h3 (by exact_mod_cast hnn)⟩

/-! ### Concrete instances used by the counterexamples and witnesses -/

/-- A 3×1 image of uniform colour, used to exhibit the centre-order
dependence of the assignment step. -/
def raceImage : Image := ⟨1, 3, fun _ _ => ⟨10, 10, 10⟩⟩

/-- Two centres of the image's colour at `x = 0` and `x = 2`: the middle
pixel is exactly equidistant from both. -/
def raceCentres : List ℚ := [10, 10, 10, 0, 0, 10, 10, 10, 2, 0]

/-! ### Claim theorems -/

set_option maxRecDepth 10000

/-- C1.  The claim asserts that the per-pixel result of one Assignment Step
is independent of the order in which the centres' windows are processed, and
hence that the unsynchronized centre-parallel writes of `createSuperpixels`
are race-free and deterministic.  It is false on the code: with two centres
of identical colour placed at `x = 0` and `x = 2` of a uniform 3×1 image
(sampling step 1, both windows covering the middle pixel with equal combined
distance), processing order `[0, 1]` assigns the middle pixel to centre 0 and
order `[1, 0]` assigns it to centre 1, because the strict `<` comparison
keeps whichever centre wrote first.  The unsynchronized `tbb::parallel_for`
over centres therefore does not yield order-independent output. -/
theorem C1_assignment_order_dependent :
    (assignmentOrder raceImage 1 false raceCentres 1 [0, 1]
      (List.replicate 3 (-1)) (List.replicate 3 dblMax) []).1.getD 1 (-1) = 0 ∧
    (assignmentOrder raceImage 1 false raceCentres 1 [1, 0]
      (List.replicate 3 (-1)) (List.replicate 3 dblMax) []).1.getD 1 (-1) = 1 ∧
    (assignmentOrder raceImage 1 false raceCentres 1 [0, 1]
      (List.replicate 3 (-1)) (List.replicate 3 dblMax) []).1 ≠
    (assignmentOrder raceImage 1 false raceCentres 1 [1, 0]
      (List.replicate 3 (-1)) (List.replicate 3 dblMax) []).1 := by
  refine ⟨by decide, by decide, by decide⟩

/-- C10.  The copy constructor `SLIC(const SLIC&)` resizes every destination
vector except `pixelReachedByClusters`, yet its first copy loop writes
`this->pixelReachedByClusters[n]` (and reads the source's entry) for every
`n < pixelsNumber`.  The destination vector still has size 0 at that point,
so for every source object with at least one pixel the write at `n = 0` is
out of bounds: the in-bounds check of all accesses of the copy loops is
false for every such source. -/
theorem C10_copy_constructor_out_of_bounds :
    ∀ src : SLICData, 0 < src.pixelsNumber →
      copyCtorAccessesInBounds src = false := by
  intro src h
  unfold copyCtorAccessesInBounds
  have h0 : ((List.range src.pixelsNumber).all fun m =>
      m < src.pixelsNumber && m < src.pixelCluster.length &&
      m < 0 && m < src.pixelReachedByClusters.length &&
      m < src.pixelsNumber && m < src.distanceFromClusterCentre.length) = false := by
    rw [List.all_eq_false]
    exact ⟨0, List.mem_range.mpr h, by simp⟩
  simp only [h0, Bool.false_and]

/-- Closed witness for C10: a well-formed singleton-pixel source (every
source vector sized consistently with its scalar fields) on which the copy
constructor's accesses are out of bounds. -/
theorem C10_copy_constructor_out_of_bounds_witness :
    copyCtorAccessesInBounds
      { pixelsNumber := 1, clustersNumber := 1, samplingStep := 1,
        spatialDistanceWeight := 1, distanceFactor := 1, errorThreshold := 0,
        totalResidualError := 0, framesNumber := 1, iterationIndex := 1,
        pixelCluster := [0], distanceFromClusterCentre := [0],
        pixelReachedByClusters := [0], clusterCentres := [0, 0, 0, 0, 0],
        previousClusterCentres := [0, 0, 0, 0, 0], pixelsOfSameCluster := [1],
        residualError := [0] } = false :=
  C10_copy_constructor_out_of_bounds _ (by decide)

/-- A 15×1 image (colours irrelevant to the relabeling pass). -/
def fragImage : Image := ⟨1, 15, fun _ _ => ⟨0, 0, 0⟩⟩

/-- A state over `fragImage` with 4 clusters and a single-pixel fragment of
cluster 1 at `x = 1` inside a sea of cluster 0: the expected average cluster
size is `15 / 4 = 3.75`. -/
def fragState : SLICData :=
  { pixelsNumber := 15, clustersNumber := 4, samplingStep := 2,
    spatialDistanceWeight := 10, distanceFactor := 1, errorThreshold := 0,
    totalResidualError := 0, framesNumber := 0, iterationIndex := 0,
    pixelCluster := [0, 1, 0, 0, 0, 0, 0, 0, 0, 0, 0, 0, 0, 0, 0],
    distanceFromClusterCentre := List.replicate 15 0,
    pixelReachedByClusters := List.replicate 15 0,
    clusterCentres := List.replicate 20 0,
    previousClusterCentres := List.replicate 20 0,
    pixelsOfSameCluster := List.replicate 4 0,
    residualError := List.replicate 4 0 }

/-- C5 counterexample.  The claim says a component is relabeled exactly when
its pixel count is at most one quarter of the average cluster size with the
average rounded to the nearest integer.  On `fragState` the average
`15 / 4 = 3.75` rounds to 4, whose quarter is 1, so the claim demands that
the single-pixel component of cluster 1 at `x = 1` (with adjacent cluster 0
available) be relabeled.  The code computes the average with unsigned
integer division (`15 / 4 = 3`; the subsequent `+ 0.5` is erased by the
truncating cast) and the threshold with another integer division
(`3 / 4 = 0`), so no component is ever relabeled and the Assignment Map is
returned unchanged. -/
theorem C5_counterexample :
    (enforceConnectivity fragImage fragState).pixelCluster = fragState.pixelCluster ∧
    fragState.pixelCluster.getD 1 (-1) = 1 ∧
    fragState.pixelCluster.getD 0 (-1) = 0 ∧
    clustersAverageSize fragState.pixelsNumber fragState.clustersNumber / 4 = 0 ∧
    (1 : ℚ) ≤
      ((⌊(fragState.pixelsNumber : ℚ) / (fragState.clustersNumber : ℚ) + 1 / 2⌋ : ℤ) : ℚ) / 4 := by
  refine ⟨by decide, by decide, by decide, by decide, by decide⟩

/-- An 8×3 image (colours irrelevant to the relabeling pass). -/
def mergeImage : Image := ⟨3, 8, fun _ _ => ⟨0, 0, 0⟩⟩

/-- A state over `mergeImage` with 3 clusters (threshold
`(24 / 3) / 4 = 2`): cluster 1 is a singleton at `(0, 1)` plus a pixel at
`(0, 2)`, and cluster 2 occupies `(2, 1)` and `(1, 2)`. -/
def mergeState : SLICData :=
  { pixelsNumber := 24, clustersNumber := 3, samplingStep := 2,
    spatialDistanceWeight := 10, distanceFactor := 1, errorThreshold := 0,
    totalResidualError := 0, framesNumber := 0, iterationIndex := 0,
    pixelCluster :=
      [0, 0, 0, 0, 0, 0, 0, 0,
       1, 0, 2, 0, 0, 0, 0, 0,
       1, 2, 0, 0, 0, 0, 0, 0],
    distanceFromClusterCentre := List.replicate 24 0,
    pixelReachedByClusters := List.replicate 24 0,
    clusterCentres := List.replicate 15 0,
    previousClusterCentres := List.replicate 15 0,
    pixelsOfSameCluster := List.replicate 3 0,
    residualError := List.replicate 3 0 }

/-- C6 counterexample.  `enforceConnectivity` is not idempotent.  On
`mergeState` the first pass keeps the size-2 cluster-1 component
`{(0,1), (0,2)}` (its fallback adjacent cluster is found by the self-hit of
the scan at column 0, so it is "merged" into itself) while merging the
cluster-2 component `{(2,1), (1,2)}` into cluster 0.  That merge connects
`(1, 2)` to the big cluster-0 component, so on a second pass the adjacent
search of the surviving small component now sees the processed cluster-0
pixel below at `(1, 2)` and relabels the component to 0: the second run
changes the Assignment Map. -/
theorem C6_counterexample :
    (enforceConnectivity mergeImage (enforceConnectivity mergeImage mergeState)).pixelCluster ≠
    (enforceConnectivity mergeImage mergeState).pixelCluster := by decide

/-- A 4×4 image of uniform colour for the orphan-recovery run. -/
def orphanImage : Image := ⟨4, 4, fun _ _ => ⟨7, 7, 7⟩⟩

/-- A connected-frame predecessor state over `orphanImage` carrying a single
stale centre at position `(0, 0)`: its `(2·2+2)`-wide search window misses
the pixels with `x = 3` or `y = 3`, which therefore stay unreached. -/
def orphanPre : SLICData :=
  { pixelsNumber := 16, clustersNumber := 1, samplingStep := 2,
    spatialDistanceWeight := 10, distanceFactor := 25, errorThreshold := 0,
    totalResidualError := 0, framesNumber := 1, iterationIndex := 0,
    pixelCluster := List.replicate 16 (-1),
    distanceFromClusterCentre := List.replicate 16 0,
    pixelReachedByClusters := List.replicate 16 0,
    clusterCentres := [7, 7, 7, 0, 0],
    previousClusterCentres := [7, 7, 7, 0, 0],
    pixelsOfSameCluster := [0],
    residualError := [0] }

/-- The `createSuperpixels` run on `orphanPre`: ADD_SUPERPIXELS mode with
connected frames (so the stale centre is reused), FIXED_ITERATIONS with
`iterationNumber = 1`, and a blob oracle reporting one non-degenerate
contour with centroid `(3, 3)`. -/
def orphanRun : SLICData :=
  createSuperpixels 10 orphanImage 2 10 1 0 FIXED_ITERATIONS ADD_SUPERPIXELS 3
    (fun _ => 0) true (fun q => q) [(1, 3, 3)] orphanPre

/-- C4 counterexample.  The claim says that whenever orphan recovery spawns
at least one new centre, the loop performs exactly one further assign/update
iteration before termination is re-checked.  On `orphanRun` the orphan
branch fires on iteration 0 (FIXED_ITERATIONS with `iterationNumber = 1`,
unreached pixels present) and spawns one centre — the cluster count grows
from 1 to 2 — yet the final iteration index is 1: exactly one loop body ran
in total, so no further iteration followed the spawn (the loop condition
`iterationIndex < iterationNumber` is already false, and the `go` flag,
still false, also forces exit). -/
theorem C4_counterexample :
    orphanRun.clustersNumber = orphanPre.clustersNumber + 1 ∧
    orphanRun.iterationIndex = 1 := by
  refine ⟨by decide, by decide⟩

theorem spawnCentres_totalResidualError (blobs : List (ℚ × ℚ × ℚ))
    (st : SLICData) :
    (spawnCentres blobs st).totalResidualError = st.totalResidualError := by
  unfold spawnCentres
  refine foldl_preserve (P := fun s => s.totalResidualError = st.totalResidualError)
    ?_ blobs st rfl
  intro s m hs
  by_cases h : m.1 = 0 <;> simp [h, hs]

theorem spawnCentres_iterationIndex (blobs : List (ℚ × ℚ × ℚ))
    (st : SLICData) :
    (spawnCentres blobs st).iterationIndex = st.iterationIndex := by
  unfold spawnCentres
  refine foldl_preserve (P := fun s => s.iterationIndex = st.iterationIndex)
    ?_ blobs st rfl
  intro s m hs
  by_cases h : m.1 = 0 <;> simp [h, hs]

theorem u32pred_eq_sub_one {n : ℕ} (h1 : 1 ≤ n) (h2 : n ≤ 4294967295) :
    u32pred n = n - 1 := by
  unfold u32pred
  omega

theorem orphanPhase_stops_loop (iterationNumber : ℕ) (errThr : ℚ)
    (SLICMode : SLICElaborationMode) (videoMode : VideoElaborationMode)
    (blobs : List (ℚ × ℚ × ℚ)) (st2 : SLICData) (go : Bool)
    (hn : iterationNumber ≤ 4294967295)
    (h : (orphanPhase iterationNumber errThr SLICMode videoMode blobs st2 go).invoked = true) :
    loopCondition iterationNumber errThr SLICMode
      (orphanPhase iterationNumber errThr SLICMode videoMode blobs st2 go).state
      (orphanPhase iterationNumber errThr SLICMode videoMode blobs st2 go).go = false := by
  have hcond : orphanCondition iterationNumber errThr SLICMode videoMode st2 = true := h
  unfold orphanPhase
  simp only [hcond, if_true]
  have htot : (spawnCentres blobs st2).totalResidualError = st2.totalResidualError :=
    spawnCentres_totalResidualError blobs st2
  have hit : (spawnCentres blobs st2).iterationIndex = st2.iterationIndex :=
    spawnCentres_iterationIndex blobs st2
  unfold orphanCondition at hcond
  simp only [Bool.and_eq_true, Bool.or_eq_true, decide_eq_true_eq, beq_iff_eq] at hcond
  obtain ⟨⟨-, hterm⟩, -⟩ := hcond
  unfold loopCondition
  cases SLICMode with
  | ERROR_THRESHOLD =>
    rcases hterm with ⟨hlt, -⟩ | ⟨-, hfix⟩
    · have : ¬ st2.totalResidualError > errThr := not_lt_of_gt hlt
      simp [htot, this]
    · exact absurd hfix (by simp)
  | FIXED_ITERATIONS =>
    rcases hterm with ⟨-, herr⟩ | ⟨hge, -⟩
    · exact absurd herr (by simp)
    · have : ¬ (spawnCentres blobs st2).iterationIndex + 1 < iterationNumber := by
        rw [hit]
        rcases Nat.eq_zero_or_pos iterationNumber with h0 | h1
        · omega
        · have := u32pred_eq_sub_one h1 hn
          omega
      simp [this]

/-- C4 amended claim.  In ADD_SUPERPIXELS / ADD_SUPERPIXELS_NOISE mode,
whenever the orphan-recovery branch runs — and it runs only when its guard
judges the iteration final: residual error strictly below the threshold
under ERROR_THRESHOLD, or iteration index at least `iterationNumber - 1`
under FIXED_ITERATIONS — the loop condition evaluated right after that body
is false, so the loop terminates on that very pass and no further
assign/update iteration happens in the current frame, whether or not new
centres were spawned (spawned centres only take effect when a later frame
reuses the Centre Store).  The bound on `iterationNumber` is the `unsigned`
range of the C++ parameter. -/
theorem C4_orphan_recovery_terminates_loop (img : Image) (S iterationNumber : ℕ)
    (errThr : ℚ) (SLICMode : SLICElaborationMode)
    (videoMode : VideoElaborationMode) (sqrtFn : ℚ → ℚ)
    (blobs : List (ℚ × ℚ × ℚ)) (st : SLICData) (go : Bool)
    (hn : iterationNumber ≤ 4294967295)
    (h : (iterationStep img S iterationNumber errThr SLICMode videoMode sqrtFn blobs st go).invoked = true) :
    loopCondition iterationNumber errThr SLICMode
      (iterationStep img S iterationNumber errThr SLICMode videoMode sqrtFn blobs st go).state
      (iterationStep img S iterationNumber errThr SLICMode videoMode sqrtFn blobs st go).go = false :=
  orphanPhase_stops_loop iterationNumber errThr SLICMode videoMode blobs
    (updatePhase img S videoMode sqrtFn st) go hn h

/-- The state entering the first loop body of the `orphanRun` scenario. -/
def orphanInit : SLICData :=
  { initSLICData orphanImage 2 10 0 ADD_SUPERPIXELS 3 (fun _ => 0) true orphanPre with
    iterationIndex := 0 }

/-- Closed witness for the amended C4: on the `orphanRun` scenario's first
loop body the orphan branch fires, and the loop condition after that body is
false. -/
theorem C4_orphan_recovery_terminates_loop_witness :
    loopCondition 1 0 FIXED_ITERATIONS
      (iterationStep orphanImage 2 1 0 FIXED_ITERATIONS ADD_SUPERPIXELS
        (fun q => q) [(1, 3, 3)] orphanInit false).state
      (iterationStep orphanImage 2 1 0 FIXED_ITERATIONS ADD_SUPERPIXELS
        (fun q => q) [(1, 3, 3)] orphanInit false).go = false :=
  C4_orphan_recovery_terminates_loop orphanImage 2 1 0 FIXED_ITERATIONS
    ADD_SUPERPIXELS (fun q => q) [(1, 3, 3)] orphanInit false (by decide) (by decide)

theorem normalizeStep_length (counts : List ℕ) (l : List ℚ) (ci : ℕ) :
    (normalizeStep counts l ci).length = l.length := by
  unfold normalizeStep
  split <;> simp

theorem normalizeCentres_length (cs : List ℚ) (counts : List ℕ) (n : ℕ) :
    (normalizeCentres cs counts n).length = cs.length := by
  unfold normalizeCentres
  refine foldl_preserve (P := fun l : List ℚ => l.length = cs.length) ?_ _ _ rfl
  intro l ci hl
  rw [normalizeStep_length, hl]

theorem normalizeCentres_succ (cs : List ℚ) (counts : List ℕ) (m : ℕ) :
    normalizeCentres cs counts (m + 1)
      = normalizeStep counts (normalizeCentres cs counts m) m := by
  unfold normalizeCentres
  rw [List.range_succ, List.foldl_append]
  rfl

theorem normalizeStep_getD_untouched (counts : List ℕ) (l : List ℚ) (ci j : ℕ)
    (h : ∀ k, k < 5 → j ≠ 5 * ci + k) :
    (normalizeStep counts l ci).getD j 0 = l.getD j 0 := by
  have h0 := h 0 (by omega)
  have h1 := h 1 (by omega)
  have h2 := h 2 (by omega)
  have h3 := h 3 (by omega)
  have h4 := h 4 (by omega)
  unfold normalizeStep
  by_cases hc : counts.getD ci 0 ≠ 0
  · simp only [if_pos hc]
    rw [getD_set_ne, getD_set_ne, getD_set_ne, getD_set_ne, getD_set_ne] <;> omega
  · simp only [if_neg hc]

theorem normalizeCentres_getD_hi (cs : List ℚ) (counts : List ℕ) :
    ∀ (n j : ℕ), 5 * n ≤ j →
      (normalizeCentres cs counts n).getD j 0 = cs.getD j 0 := by
  intro n
  induction n with
  | zero => intro j _; rfl
  | succ m ih =>
    intro j hj
    rw [normalizeCentres_succ, normalizeStep_getD_untouched, ih j (by omega)]
    intro k hk
    omega

theorem normalizeStep_getD_self (counts : List ℕ) (l : List ℚ) (ci k : ℕ)
    (hk : k < 5) (hlen : 5 * ci + 4 < l.length) (hc : counts.getD ci 0 ≠ 0) :
    (normalizeStep counts l ci).getD (5 * ci + k) 0
      = l.getD (5 * ci + k) 0 / (counts.getD ci 0 : ℚ) := by
  unfold normalizeStep
  simp only [if_pos hc]
  interval_cases k <;>
    simp (disch := (try simp only [List.length_set]); omega) only
      [getD_set_ne, getD_set_self, List.length_set, Nat.add_zero]

/-- C3.  In every Update Step normalization pass — the `normalizeCentres`
routine shared verbatim between the `createSuperpixels` loop and the centre
recomputation at the end of `enforceConnectivity` — a centre whose pixel
count is zero is left exactly as accumulated (no division by its zero count
is performed on any of its five fields), while a centre with a non-zero
count has each field divided by that count; division by a zero count is
therefore unreachable in normalization. -/
theorem C3_empty_centre_unnormalized :
    ∀ (cs : List ℚ) (counts : List ℕ) (n ci : ℕ), ci < n →
      (counts.getD ci 0 = 0 →
        ∀ k, k < 5 →
          (normalizeCentres cs counts n).getD (5 * ci + k) 0
            = cs.getD (5 * ci + k) 0) ∧
      (counts.getD ci 0 ≠ 0 → 5 * ci + 4 < cs.length →
        ∀ k, k < 5 →
          (normalizeCentres cs counts n).getD (5 * ci + k) 0
            = cs.getD (5 * ci + k) 0 / (counts.getD ci 0 : ℚ)) := by
  intro cs counts n
  induction n with
  | zero => intro ci h; omega
  | succ m ih =>
    intro ci hci
    rcases Nat.lt_or_ge ci m with hlt | hge
    · obtain ⟨ihz, ihnz⟩ := ih ci hlt
      constructor
      · intro hzero k hk
        rw [normalizeCentres_succ, normalizeStep_getD_untouched]
        · exact ihz hzero k hk
        · intro k' hk'; omega
      · intro hnz hlen k hk
        rw [normalizeCentres_succ, normalizeStep_getD_untouched]
        · exact ihnz hnz hlen k hk
        · intro k' hk'; omega
    · have hcm : ci = m := by omega
      subst hcm
      constructor
      · intro hzero k hk
        rw [normalizeCentres_succ]
        have hid : normalizeStep counts (normalizeCentres cs counts ci) ci
            = normalizeCentres cs counts ci := by
          unfold normalizeStep
          rw [if_neg (by simpa using hzero)]
        rw [hid]
        exact normalizeCentres_getD_hi cs counts ci (5 * ci + k) (by omega)
      · intro hnz hlen k hk
        rw [normalizeCentres_succ,
          normalizeStep_getD_self counts _ ci k hk
            (by rw [normalizeCentres_length]; exact hlen) hnz,
          normalizeCentres_getD_hi cs counts ci (5 * ci + k) (by omega)]

/-- Closed witness for C3: with two centres whose counts are `[0, 2]`, the
empty centre's first field is left at its accumulated value while the
non-empty centre's first field is halved. -/
theorem C3_empty_centre_unnormalized_witness :
    (normalizeCentres [1, 2, 3, 4, 5, 6, 7, 8, 9, 10] [0, 2] 2).getD 0 0 = 1 ∧
    (normalizeCentres [1, 2, 3, 4, 5, 6, 7, 8, 9, 10] [0, 2] 2).getD 5 0 = 3 := by
  constructor
  · have h := (C3_empty_centre_unnormalized
      [1, 2, 3, 4, 5, 6, 7, 8, 9, 10] [0, 2] 2 0 (by decide)).1 (by decide) 0 (by decide)
    rw [h]
    decide
  · have h := (C3_empty_centre_unnormalized
      [1, 2, 3, 4, 5, 6, 7, 8, 9, 10] [0, 2] 2 1 (by decide)).2 (by decide) (by decide) 0 (by decide)
    rw [h]
    decide

theorem noiseStep_length (noise : ℕ → ℚ) (l : List ℚ) (i : ℕ) :
    (noiseStep noise l i).length = l.length := by
  unfold noiseStep
  simp

theorem addPositionNoise_length (cs : List ℚ) (n : ℕ) (noise : ℕ → ℚ) :
    (addPositionNoise cs n noise).length = cs.length := by
  unfold addPositionNoise
  refine foldl_preserve (P := fun l : List ℚ => l.length = cs.length) ?_ _ _ rfl
  intro l i hl
  rw [noiseStep_length, hl]

theorem addPositionNoise_succ (cs : List ℚ) (m : ℕ) (noise : ℕ → ℚ) :
    addPositionNoise cs (m + 1) noise
      = noiseStep noise (addPositionNoise cs m noise) m := by
  unfold addPositionNoise
  rw [List.range_succ, List.foldl_append]
  rfl

theorem noiseStep_getD_untouched (noise : ℕ → ℚ) (l : List ℚ) (i j : ℕ)
    (h3 : j ≠ 5 * i + 3) (h4 : j ≠ 5 * i + 4) :
    (noiseStep noise l i).getD j 0 = l.getD j 0 := by
  unfold noiseStep
  rw [getD_set_ne, getD_set_ne] <;> omega

theorem addPositionNoise_getD_hi (cs : List ℚ) (noise : ℕ → ℚ) :
    ∀ (n j : ℕ), 5 * n ≤ j →
      (addPositionNoise cs n noise).getD j 0 = cs.getD j 0 := by
  intro n
  induction n with
  | zero => intro j _; rfl
  | succ m ih =>
    intro j hj
    rw [addPositionNoise_succ, noiseStep_getD_untouched]
    · exact ih j (by omega)
    · omega
    · omega

theorem addPositionNoise_getD_colour (cs : List ℚ) (noise : ℕ → ℚ) :
    ∀ (n i k : ℕ), i < n → k < 3 →
      (addPositionNoise cs n noise).getD (5 * i + k) 0
        = cs.getD (5 * i + k) 0 := by
  intro n
  induction n with
  | zero => intro i k h _; omega
  | succ m ih =>
    intro i k hi hk
    rw [addPositionNoise_succ, noiseStep_getD_untouched]
    · rcases Nat.lt_or_ge i m with hlt | hge
      · exact ih i k hlt hk
      · have : i = m := by omega
        subst this
        exact addPositionNoise_getD_hi cs noise i (5 * i + k) (by omega)
    · omega
    · omega

theorem addPositionNoise_getD_position (cs : List ℚ) (noise : ℕ → ℚ) :
    ∀ (n i : ℕ), i < n → 5 * i + 4 < cs.length →
      (addPositionNoise cs n noise).getD (5 * i + 3) 0
          = cs.getD (5 * i + 3) 0 + noise (2 * i) ∧
      (addPositionNoise cs n noise).getD (5 * i + 4) 0
          = cs.getD (5 * i + 4) 0 + noise (2 * i + 1) := by
  intro n
  induction n with
  | zero => intro i h _; omega
  | succ m ih =>
    intro i hi hlen
    rcases Nat.lt_or_ge i m with hlt | hge
    · obtain ⟨ih3, ih4⟩ := ih i hlt hlen
      rw [addPositionNoise_succ]
      rw [noiseStep_getD_untouched _ _ _ _ (by omega) (by omega),
        noiseStep_getD_untouched _ _ _ _ (by omega) (by omega)] at *
      exact ⟨ih3, ih4⟩
    · have him : i = m := by omega
      subst him
      have hL : (addPositionNoise cs i noise).length = cs.length :=
        addPositionNoise_length cs i noise
      have hhi3 := addPositionNoise_getD_hi cs noise i (5 * i + 3) (by omega)
      have hhi4 := addPositionNoise_getD_hi cs noise i (5 * i + 4) (by omega)
      rw [addPositionNoise_succ]
      unfold noiseStep
      constructor
      · rw [getD_set_ne (h := by omega)]
        rw [getD_set_self (by omega), hhi3]
      · rw [getD_set_self (by simp only [List.length_set]; omega)]
        rw [getD_set_ne (h := by omega), hhi4]

/-- C9.  In the noise video modes (NOISE, KEY_FRAMES_NOISE,
ADD_SUPERPIXELS_NOISE), when `initializeSLICData` reuses the prior frame's
centres instead of reseeding, the jitter loop adds the next two random draws
to each centre's x and y fields only: every centre's three colour fields are
exactly unchanged, and the cluster count, Assignment Map and Distance Map
are not modified by the jitter step. -/
theorem C9_noise_jitters_position_only :
    ∀ (img : Image) (S W : ℕ) (thr : ℚ) (videoMode : VideoElaborationMode)
      (kr : ℕ) (noise : ℕ → ℚ) (cf : Bool) (st : SLICData),
      reseedCondition videoMode kr cf st = false →
      (videoMode = NOISE ∨ videoMode = KEY_FRAMES_NOISE ∨
        videoMode = ADD_SUPERPIXELS_NOISE) →
      ((initSLICData img S W thr videoMode kr noise cf st).clustersNumber
          = st.clustersNumber ∧
       (initSLICData img S W thr videoMode kr noise cf st).pixelCluster
          = st.pixelCluster ∧
       (initSLICData img S W thr videoMode kr noise cf st).distanceFromClusterCentre
          = st.distanceFromClusterCentre ∧
       (initSLICData img S W thr videoMode kr noise cf st).clusterCentres
          = addPositionNoise st.clusterCentres st.clustersNumber noise) ∧
      ((∀ i k : ℕ, i < st.clustersNumber → k < 3 →
         (addPositionNoise st.clusterCentres st.clustersNumber noise).getD (5 * i + k) 0
           = st.clusterCentres.getD (5 * i + k) 0) ∧
       (∀ i : ℕ, i < st.clustersNumber → 5 * i + 4 < st.clusterCentres.length →
         (addPositionNoise st.clusterCentres st.clustersNumber noise).getD (5 * i + 3) 0
             = st.clusterCentres.getD (5 * i + 3) 0 + noise (2 * i) ∧
         (addPositionNoise st.clusterCentres st.clustersNumber noise).getD (5 * i + 4) 0
             = st.clusterCentres.getD (5 * i + 4) 0 + noise (2 * i + 1))) := by
  intro img S W thr videoMode kr noise cf st hres hmode
  constructor
  · rcases hmode with rfl | rfl | rfl <;>
      simp [initSLICData, hres]
  · constructor
    · intro i k hi hk
      exact addPositionNoise_getD_colour st.clusterCentres noise st.clustersNumber i k hi hk
    · intro i hi hlen
      exact addPositionNoise_getD_position st.clusterCentres noise st.clustersNumber i hi hlen

/-- Closed witness for C9: one reused centre `[9, 8, 7, 1, 2]` in NOISE mode
with draws `3, 4, ...`: colours stay `9, 8, 7`, the position becomes
`(4, 6)`, and count and maps are untouched. -/
theorem C9_noise_jitters_position_only_witness :
    (initSLICData (Image.mk 3 3 (fun _ _ => ⟨0, 0, 0⟩)) 1 1 0 NOISE 2
        (fun d => (d : ℚ) + 3) true
        { pixelsNumber := 9, clustersNumber := 1, samplingStep := 1,
          spatialDistanceWeight := 1, distanceFactor := 1, errorThreshold := 0,
          totalResidualError := 0, framesNumber := 1, iterationIndex := 0,
          pixelCluster := List.replicate 9 0,
          distanceFromClusterCentre := List.replicate 9 0,
          pixelReachedByClusters := List.replicate 9 0,
          clusterCentres := [9, 8, 7, 1, 2],
          previousClusterCentres := [9, 8, 7, 1, 2],
          pixelsOfSameCluster := [9], residualError := [0] }).clusterCentres
      = addPositionNoise [9, 8, 7, 1, 2] 1 (fun d => (d : ℚ) + 3) ∧
    (addPositionNoise [9, 8, 7, 1, 2] 1 (fun d => (d : ℚ) + 3)).getD 0 0 = 9 ∧
    (addPositionNoise [9, 8, 7, 1, 2] 1 (fun d => (d : ℚ) + 3)).getD 3 0 = 1 + 3 ∧
    (addPositionNoise [9, 8, 7, 1, 2] 1 (fun d => (d : ℚ) + 3)).getD 4 0 = 2 + 4 := by
  have h := C9_noise_jitters_position_only (Image.mk 3 3 (fun _ _ => ⟨0, 0, 0⟩))
    1 1 0 NOISE 2 (fun d => (d : ℚ) + 3) true
    { pixelsNumber := 9, clustersNumber := 1, samplingStep := 1,
      spatialDistanceWeight := 1, distanceFactor := 1, errorThreshold := 0,
      totalResidualError := 0, framesNumber := 1, iterationIndex := 0,
      pixelCluster := List.replicate 9 0,
      distanceFromClusterCentre := List.replicate 9 0,
      pixelReachedByClusters := List.replicate 9 0,
      clusterCentres := [9, 8, 7, 1, 2],
      previousClusterCentres := [9, 8, 7, 1, 2],
      pixelsOfSameCluster := [9], residualError := [0] }
    (by decide) (Or.inl rfl)
  refine ⟨h.1.2.2.2, ?_, ?_, ?_⟩
  · have := h.2.1 0 0 (by decide) (by decide)
    simpa using this
  · have := (h.2.2 0 (by decide) (by decide)).1
    simpa using this
  · have := (h.2.2 0 (by decide) (by decide)).2
    simpa using this

/-- An all-empty `SLIC` object, as produced by the default constructor. -/
def blankState : SLICData :=
  { pixelsNumber := 0, clustersNumber := 0, samplingStep := 0,
    spatialDistanceWeight := 0, distanceFactor := 0, errorThreshold := 0,
    totalResidualError := 0, framesNumber := 0, iterationIndex := 0,
    pixelCluster := [], distanceFromClusterCentre := [],
    pixelReachedByClusters := [], clusterCentres := [],
    previousClusterCentres := [], pixelsOfSameCluster := [],
    residualError := [] }

/-- C7.  The stored distance factor of a freshly seeded frame is
`spatialDistanceWeight² / samplingStep²`; `computeDistance` returns the sum
over the three channels of squared colour differences plus that factor times
the sum of squared coordinate differences; and the per-pixel visit of the
Assignment Step overwrites the pixel's Distance Map entry with the computed
distance and its Assignment Map entry with this centre's index exactly when
the computed distance is strictly lower than the current Distance Map entry,
leaving both maps unchanged otherwise. -/
theorem C7_distance_and_update_rule :
    (∀ (img : Image) (S W : ℕ) (thr : ℚ) (videoMode : VideoElaborationMode)
        (kr : ℕ) (noise : ℕ → ℚ) (cf : Bool) (st : SLICData),
        reseedCondition videoMode kr cf st = true →
        (initSLICData img S W thr videoMode kr noise cf st).distanceFactor
          = ((W : ℚ) ^ 2) / ((S : ℚ) ^ 2)) ∧
    (∀ (cs : List ℚ) (f : ℚ) (ci : ℕ) (px py : ℤ) (c : Color),
        computeDistance cs f ci px py c =
          ((cs.getD (5 * ci) 0 - ((c.l : ℕ) : ℚ)) ^ 2 +
            (cs.getD (5 * ci + 1) 0 - ((c.a : ℕ) : ℚ)) ^ 2 +
            (cs.getD (5 * ci + 2) 0 - ((c.b : ℕ) : ℚ)) ^ 2) +
          f * ((cs.getD (5 * ci + 3) 0 - (px : ℚ)) ^ 2 +
            (cs.getD (5 * ci + 4) 0 - (py : ℚ)) ^ 2)) ∧
    (∀ (img : Image) (mr : Bool) (cs : List ℚ) (f : ℚ) (ci : ℕ) (x y : ℤ)
        (pc : List ℤ) (dist : List ℚ) (reached : List ℕ),
        0 ≤ x → x < (img.cols : ℤ) → 0 ≤ y → y < (img.rows : ℤ) →
        y.toNat * img.cols + x.toNat < pc.length →
        y.toNat * img.cols + x.toNat < dist.length →
        ((computeDistance cs f ci x y (img.pix y.toNat x.toNat)
            < dist.getD (y.toNat * img.cols + x.toNat) 0 →
          (assignVisit img mr cs f ci x y (pc, dist, reached)).1.getD
              (y.toNat * img.cols + x.toNat) (-1) = (ci : ℤ) ∧
          (assignVisit img mr cs f ci x y (pc, dist, reached)).2.1.getD
              (y.toNat * img.cols + x.toNat) 0
            = computeDistance cs f ci x y (img.pix y.toNat x.toNat)) ∧
         (¬ computeDistance cs f ci x y (img.pix y.toNat x.toNat)
            < dist.getD (y.toNat * img.cols + x.toNat) 0 →
          (assignVisit img mr cs f ci x y (pc, dist, reached)).1 = pc ∧
          (assignVisit img mr cs f ci x y (pc, dist, reached)).2.1 = dist))) := by
  refine ⟨?_, ?_, ?_⟩
  · intro img S W thr videoMode kr noise cf st h
    unfold initSLICData
    by_cases hb : (videoMode == ADD_SUPERPIXELS || videoMode == ADD_SUPERPIXELS_NOISE) = true <;>
      simp [h, hb, pow_two]
  · intro cs f ci px py c
    unfold computeDistance
    ring
  · intro img mr cs f ci x y pc dist reached hx0 hx1 hy0 hy1 hpc hdist
    unfold assignVisit
    rw [if_pos ⟨hx0, hx1, hy0, hy1⟩]
    constructor
    · intro hlt
      rw [if_pos hlt]
      exact ⟨getD_set_self hpc, getD_set_self hdist⟩
    · intro hge
      rw [if_neg hge]
      exact ⟨rfl, rfl⟩

/-- Closed witness for C7 at concrete inputs: a seeded 3×3 frame with
weight 2 and step 1 stores factor 4; the distance of centre 0 of
`[1, 2, 3, 4, 5]` with factor ½ to pixel `(1, 1)` of colour `(0, 0, 0)`
matches the formula; and a visit whose distance beats the current entry
updates both maps at the pixel. -/
theorem C7_distance_and_update_rule_witness :
    (initSLICData (Image.mk 3 3 (fun _ _ => ⟨0, 0, 0⟩)) 1 2 0 INDEPENDENT 1
        (fun _ => 0) false blankState).distanceFactor = ((2 : ℚ) ^ 2) / ((1 : ℚ) ^ 2) ∧
    computeDistance [1, 2, 3, 4, 5] (1 / 2) 0 1 1 ⟨0, 0, 0⟩ =
      (((1 : ℚ) - 0) ^ 2 + ((2 : ℚ) - 0) ^ 2 + ((3 : ℚ) - 0) ^ 2) +
      (1 / 2) * (((4 : ℚ) - 1) ^ 2 + ((5 : ℚ) - 1) ^ 2) ∧
    ((assignVisit (Image.mk 1 3 (fun _ _ => ⟨0, 0, 0⟩)) false [1, 2, 3, 4, 5]
        (1 / 2) 0 1 0 ([-1, -1, -1], [dblMax, dblMax, dblMax], [])).1.getD 1 (-1) = 0 ∧
     (assignVisit (Image.mk 1 3 (fun _ _ => ⟨0, 0, 0⟩)) false [1, 2, 3, 4, 5]
        (1 / 2) 0 1 0 ([-1, -1, -1], [dblMax, dblMax, dblMax], [])).2.1.getD 1 0
       = computeDistance [1, 2, 3, 4, 5] (1 / 2) 0 1 0 ⟨0, 0, 0⟩) := by
  refine ⟨?_, ?_, ?_⟩
  · exact C7_distance_and_update_rule.1 (Image.mk 3 3 (fun _ _ => ⟨0, 0, 0⟩)) 1 2 0
      INDEPENDENT 1 (fun _ => 0) false blankState (by decide)
  · rw [C7_distance_and_update_rule.2.1 [1, 2, 3, 4, 5] (1 / 2) 0 1 1 ⟨0, 0, 0⟩]
    decide
  · have h := (C7_distance_and_update_rule.2.2 (Image.mk 1 3 (fun _ _ => ⟨0, 0, 0⟩))
      false [1, 2, 3, 4, 5] (1 / 2) 0 1 0 [-1, -1, -1] [dblMax, dblMax, dblMax] []
      (by decide) (by decide) (by decide) (by decide) (by decide) (by decide)).1
      (by decide)
    exact h

theorem clustersAverageSize_eq_div (pixels n : ℕ) :
    clustersAverageSize pixels n = pixels / n := by
  have hfl : ∀ m : ℕ, ⌊(m : ℚ) + 1 / 2⌋ = (m : ℤ) := by
    intro m
    rw [Int.floor_eq_iff]
    constructor
    · push_cast
      linarith
    · push_cast
      linarith
  unfold clustersAverageSize truncQ
  rw [if_pos (by positivity), hfl]
  exact Int.toNat_natCast _

/-- C5 amended claim.  The expression
`static_cast<unsigned>(pixelsNumber / clustersNumber + 0.5)` performs the
division on `unsigned` operands before the `+ 0.5`, and the truncating cast
then erases the half, so the "average cluster size" equals the floor
`pixelsNumber / clustersNumber` (not the nearest integer), and a grown
component is relabeled to the fallback adjacent cluster exactly when its
pixel count is at most `(pixelsNumber / clustersNumber) / 4` in integer
arithmetic (the `count <= clustersAverageSize / 4` guard of the relabeling
pass). -/
theorem C5_component_merge_threshold :
    (∀ pixels n : ℕ, clustersAverageSize pixels n = pixels / n) ∧
    (∀ (img : Image) (pc : List ℤ) (pixels n : ℕ),
        enforceRelabel img pc pixels n
          = (pixelScan img).foldl (processPixel img pc (pixels / n / 4))
              (List.replicate pixels (-1), 0, false)) := by
  constructor
  · exact clustersAverageSize_eq_div
  · intro img pc pixels n
    unfold enforceRelabel
    rw [clustersAverageSize_eq_div]

theorem sampleCoords_mem (limit S : ℕ) (hS : 0 < S) (x : ℕ) :
    x ∈ sampleCoords limit S ↔ ∃ i : ℕ, 1 ≤ i ∧ x = i * S ∧ x < limit := by
  unfold sampleCoords
  simp only [List.mem_map, List.mem_range]
  constructor
  · rintro ⟨k, hk, rfl⟩
    refine ⟨k + 1, by omega, rfl, ?_⟩
    have h1 := (Nat.le_div_iff_mul_le hS).mp (by omega : k + 1 ≤ (limit - 1) / S)
    have h2 : 1 * 1 ≤ (k + 1) * S := Nat.mul_le_mul (by omega) hS
    omega
  · rintro ⟨i, h1, rfl, hlt⟩
    refine ⟨i - 1, ?_, by congr 1; omega⟩
    have : i ≤ (limit - 1) / S := (Nat.le_div_iff_mul_le hS).mpr (by omega)
    omega

theorem gridPoints_mem (img : Image) (S : ℕ) (hS : 0 < S) (x y : ℕ) :
    (x, y) ∈ gridPoints img S ↔
      (∃ i : ℕ, 1 ≤ i ∧ x = i * S ∧ x < img.cols) ∧
      (∃ j : ℕ, 1 ≤ j ∧ y = j * S ∧ y < img.rows) := by
  unfold gridPoints
  simp only [List.mem_flatMap, List.mem_map, Prod.mk.injEq]
  constructor
  · rintro ⟨b, hb, a, ha, rfl, rfl⟩
    exact ⟨(sampleCoords_mem _ S hS _).mp ha, (sampleCoords_mem _ S hS _).mp hb⟩
  · rintro ⟨hx, hy⟩
    exact ⟨y, (sampleCoords_mem _ S hS _).mpr hy, x,
      (sampleCoords_mem _ S hS _).mpr hx, rfl, rfl⟩

theorem foldl_min_spec {α : Type _} (g : α → ℤ)
    (step : ℤ × α → α → ℤ × α)
    (hstep : step = fun best q => if g q < best.1 then (g q, q) else best) :
    ∀ (l : List α) (b : ℤ × α),
      (l.foldl step b = b ∨
        ((l.foldl step b).2 ∈ l ∧ (l.foldl step b).1 = g (l.foldl step b).2)) ∧
      (∀ q ∈ l, (l.foldl step b).1 ≤ g q) ∧ (l.foldl step b).1 ≤ b.1 := by
  intro l
  induction l with
  | nil => intro b; exact ⟨Or.inl rfl, by simp, le_refl _⟩
  | cons a t ih =>
    intro b
    have hfold : (a :: t).foldl step b = t.foldl step (step b a) := rfl
    obtain ⟨hmem, hmin, hle⟩ := ih (step b a)
    have hba : (step b a).1 ≤ b.1 ∧ (step b a = b ∨ (step b a).2 = a ∧ (step b a).1 = g a) := by
      rw [hstep]
      dsimp only
      by_cases hlt : g a < b.1
      · rw [if_pos hlt]
        exact ⟨le_of_lt hlt, Or.inr ⟨rfl, rfl⟩⟩
      · rw [if_neg hlt]
        exact ⟨le_refl _, Or.inl rfl⟩
    have hlea : (step b a).1 ≤ g a := by
      rw [hstep]
      dsimp only
      by_cases hlt : g a < b.1
      · rw [if_pos hlt]
      · rw [if_neg hlt]
        omega
    refine ⟨?_, ?_, ?_⟩
    · rw [hfold]
      rcases hmem with heq | ⟨h2, h1⟩
      · rw [heq]
        rcases hba.2 with hb | ⟨ha2, ha1⟩
        · exact Or.inl hb
        · exact Or.inr ⟨by rw [ha2]; exact List.mem_cons_self a t, by rw [ha2, ha1]⟩
      · exact Or.inr ⟨List.mem_cons_of_mem a h2, h1⟩
    · intro q hq
      rw [hfold]
      rcases List.mem_cons.mp hq with rfl | hqt
      · exact le_trans hle hlea
      · exact hmin q hqt
    · rw [hfold]
      exact le_trans hle hba.1

theorem gradientAt_lt_uintMax (img : Image) (x y : ℤ) :
    gradientAt img x y < uintMax := by
  unfold gradientAt uintMax
  have hb : ∀ a b : Fin 256, ((a : ℤ) - (b : ℤ)) * ((a : ℤ) - (b : ℤ)) ≤ 65025 := by
    intro a b
    have ha1 : (a : ℤ) ≤ 255 := by exact_mod_cast Nat.le_of_lt_succ a.isLt
    have ha0 : (0 : ℤ) ≤ (a : ℤ) := Int.natCast_nonneg _
    have hb1 : (b : ℤ) ≤ 255 := by exact_mod_cast Nat.le_of_lt_succ b.isLt
    have hb0 : (0 : ℤ) ≤ (b : ℤ) := Int.natCast_nonneg _
    nlinarith
  have h1 := hb (img.pix y.toNat (x + 1).toNat).l (img.pix y.toNat (x - 1).toNat).l
  have h2 := hb (img.pix (y - 1).toNat x.toNat).l (img.pix (y + 1).toNat x.toNat).l
  omega

theorem findLowestGradient_spec (img : Image) (cx cy : ℤ) :
    (fLGCandidates img cx cy = [] ∧ findLowestGradient img cx cy = (cx, cy)) ∨
    (findLowestGradient img cx cy ∈ fLGCandidates img cx cy ∧
      ∀ q ∈ fLGCandidates img cx cy,
        gradientAt img (findLowestGradient img cx cy).1
            (findLowestGradient img cx cy).2
          ≤ gradientAt img q.1 q.2) := by
  have hspec := foldl_min_spec (fun q : ℤ × ℤ => gradientAt img q.1 q.2)
    (fun best q =>
      if gradientAt img q.1 q.2 < best.1 then (gradientAt img q.1 q.2, q) else best)
    rfl (fLGCandidates img cx cy) (uintMax, (cx, cy))
  rcases h : fLGCandidates img cx cy with _ | ⟨q0, t⟩
  · exact Or.inl ⟨rfl, by unfold findLowestGradient; rw [h]; rfl⟩
  · right
    rw [h] at hspec
    obtain ⟨hmem, hmin, -⟩ := hspec
    rcases hmem with heq | ⟨h2, h1⟩
    · exfalso
      have hlt := hmin q0 (List.mem_cons_self q0 t)
      rw [heq] at hlt
      exact absurd hlt (not_le.mpr (gradientAt_lt_uintMax img q0.1 q0.2))
    · have hfl : findLowestGradient img cx cy
          = ((q0 :: t).foldl (fun best q =>
              if gradientAt img q.1 q.2 < best.1 then (gradientAt img q.1 q.2, q)
              else best) (uintMax, (cx, cy))).2 := by
        unfold findLowestGradient
        rw [h]
      rw [hfl]
      refine ⟨by rw [← h] at h2 ⊢; exact h2, ?_⟩
      intro q hq
      rw [← h1]
      exact hmin q (by rw [← h] at hq ⊢; exact hq)

theorem flatMap_block_getD (g : ℕ × ℕ → List ℚ) (hg : ∀ a, (g a).length = 5) :
    ∀ (l : List (ℕ × ℕ)) (i k : ℕ), i < l.length → k < 5 →
      (l.flatMap g).getD (5 * i + k) 0 = (g (l.getD i (0, 0))).getD k 0 := by
  intro l
  induction l with
  | nil => intro i k hi _; simp at hi
  | cons a t ih =>
    intro i k hi hk
    rw [List.flatMap_cons]
    cases i with
    | zero =>
      have h0 : 5 * 0 + k = k := by omega
      rw [h0, List.getD_append]
      · simp
      · rw [hg a]; omega
    | succ m =>
      rw [List.getD_append_right]
      · have hix : 5 * (m + 1) + k - (g a).length = 5 * m + k := by rw [hg a]; omega
        rw [hix, List.getD_cons_succ]
        exact ih m k (by simpa using hi) hk
      · rw [hg a]; omega

/-- The 100×100 uniform-gray image of the spec's concrete seeding scenario. -/
def uniformGray : Image := ⟨100, 100, fun _ _ => ⟨128, 128, 128⟩⟩

/-- The seeded state of the concrete scenario: sampling step 20, spatial
weight 10, full reseed from scratch. -/
def seededGray : SLICData :=
  initSLICData uniformGray 20 10 0 INDEPENDENT 1 (fun _ => 0) false blankState

/-- C8.  On a full reseed with sampling step `S`: the grid points are exactly
the pairs of positive multiples of `S` strictly inside the image; the
cluster count is set to the number of grid points; every seeded centre's
position is the pixel returned by `findLowestGradient` for its grid point,
which lies among the scanned (border-excluded) 3×3 candidates and minimises
the first-channel gradient over them (or is the grid point itself when the
candidate set is empty); and on a 100×100 uniform-gray image with step 20
exactly 16 centres result, on a 4×4 grid (each grid point relocated to the
first minimal-gradient candidate, its upper-left neighbour, since all
gradients are zero). -/
theorem C8_seeder :
    (∀ (img : Image) (S : ℕ), 0 < S → ∀ x y : ℕ,
      ((x, y) ∈ gridPoints img S ↔
        (∃ i : ℕ, 1 ≤ i ∧ x = i * S ∧ x < img.cols) ∧
        (∃ j : ℕ, 1 ≤ j ∧ y = j * S ∧ y < img.rows))) ∧
    (∀ (img : Image) (S W : ℕ) (thr : ℚ) (videoMode : VideoElaborationMode)
        (kr : ℕ) (noise : ℕ → ℚ) (cf : Bool) (st : SLICData),
        reseedCondition videoMode kr cf st = true →
        (initSLICData img S W thr videoMode kr noise cf st).clustersNumber
            = (gridPoints img S).length ∧
        (initSLICData img S W thr videoMode kr noise cf st).clusterCentres
            = seedCentres img S) ∧
    (∀ (img : Image) (S i : ℕ), i < (gridPoints img S).length →
        (seedCentres img S).getD (5 * i + 3) 0
            = ((findLowestGradient img ((gridPoints img S).getD i (0, 0)).1
                ((gridPoints img S).getD i (0, 0)).2).1 : ℚ) ∧
        (seedCentres img S).getD (5 * i + 4) 0
            = ((findLowestGradient img ((gridPoints img S).getD i (0, 0)).1
                ((gridPoints img S).getD i (0, 0)).2).2 : ℚ)) ∧
    (∀ (img : Image) (cx cy : ℤ),
      (fLGCandidates img cx cy = [] ∧ findLowestGradient img cx cy = (cx, cy)) ∨
      (findLowestGradient img cx cy ∈ fLGCandidates img cx cy ∧
        ∀ q ∈ fLGCandidates img cx cy,
          gradientAt img (findLowestGradient img cx cy).1
              (findLowestGradient img cx cy).2
            ≤ gradientAt img q.1 q.2)) ∧
    (seededGray.clustersNumber = 16 ∧
      (List.range 16).map (fun i =>
        (seededGray.clusterCentres.getD (5 * i + 3) 0,
         seededGray.clusterCentres.getD (5 * i + 4) 0)) =
        [(19, 19), (39, 19), (59, 19), (79, 19),
         (19, 39), (39, 39), (59, 39), (79, 39),
         (19, 59), (39, 59), (59, 59), (79, 59),
         (19, 79), (39, 79), (59, 79), (79, 79)]) := by
  refine ⟨gridPoints_mem, ?_, ?_, findLowestGradient_spec, by decide, by decide⟩
  · intro img S W thr videoMode kr noise cf st h
    unfold initSLICData
    by_cases hb : (videoMode == ADD_SUPERPIXELS || videoMode == ADD_SUPERPIXELS_NOISE) = true <;>
      simp [h, hb]
  · intro img S i hi
    unfold seedCentres
    constructor
    · rw [flatMap_block_getD (centreBlock img) (fun a => rfl) _ i 3 hi (by omega)]
      rfl
    · rw [flatMap_block_getD (centreBlock img) (fun a => rfl) _ i 4 hi (by omega)]
      rfl

/-- Closed witness for C8: the grid-point characterization, cluster count
and first centre position instantiated on the concrete 100×100 scenario. -/
theorem C8_seeder_witness :
    ((20, 20) ∈ gridPoints uniformGray 20 ↔
      (∃ i : ℕ, 1 ≤ i ∧ 20 = i * 20 ∧ 20 < uniformGray.cols) ∧
      (∃ j : ℕ, 1 ≤ j ∧ 20 = j * 20 ∧ 20 < uniformGray.rows)) ∧
    (initSLICData uniformGray 20 10 0 INDEPENDENT 1 (fun _ => 0) false
        blankState).clustersNumber = (gridPoints uniformGray 20).length ∧
    (seedCentres uniformGray 20).getD 3 0
      = ((findLowestGradient uniformGray ((gridPoints uniformGray 20).getD 0 (0, 0)).1
          ((gridPoints uniformGray 20).getD 0 (0, 0)).2).1 : ℚ) :=
  ⟨C8_seeder.1 uniformGray 20 (by decide) 20 20,
   (C8_seeder.2.1 uniformGray 20 10 0 INDEPENDENT 1 (fun _ => 0) false blankState
      (by decide)).1,
   by
     have h := (C8_seeder.2.2.1 uniformGray 20 0 (by decide)).1
     simpa using h⟩

theorem spawnCentres_pixelCluster (blobs : List (ℚ × ℚ × ℚ)) (st : SLICData) :
    (spawnCentres blobs st).pixelCluster = st.pixelCluster := by
  unfold spawnCentres
  refine foldl_preserve (P := fun s => s.pixelCluster = st.pixelCluster) ?_ blobs st rfl
  intro s m hs
  by_cases h : m.1 = 0 <;> simp [h, hs]

theorem spawnCentres_clustersNumber_ge (blobs : List (ℚ × ℚ × ℚ)) (st : SLICData) :
    st.clustersNumber ≤ (spawnCentres blobs st).clustersNumber := by
  unfold spawnCentres
  refine foldl_preserve (P := fun s => st.clustersNumber ≤ s.clustersNumber) ?_ blobs st
    (le_refl _)
  intro s m hs
  by_cases h : m.1 = 0 <;> simp [h] <;> omega

theorem assignVisit_pcValid {n : ℕ} (img : Image) (mr : Bool) (cs : List ℚ)
    (f : ℚ) {ci : ℕ} (hci : ci < n) (x y : ℤ)
    (acc : List ℤ × List ℚ × List ℕ) (h : pcEntriesValid n acc.1) :
    pcEntriesValid n (assignVisit img mr cs f ci x y acc).1 := by
  unfold assignVisit
  by_cases hb : 0 ≤ x ∧ x < (img.cols : ℤ) ∧ 0 ≤ y ∧ y < (img.rows : ℤ)
  · rw [if_pos hb]
    dsimp only
    by_cases hd : computeDistance cs f ci x y (img.pix y.toNat x.toNat)
        < acc.2.1.getD (y.toNat * img.cols + x.toNat) 0
    · rw [if_pos hd]
      exact pcEntriesValid_set h (Or.inr ⟨Int.natCast_nonneg ci, by exact_mod_cast hci⟩)
    · rw [if_neg hd]
      exact h
  · rw [if_neg hb]
    exact h

theorem assignCentrePass_pcValid {n : ℕ} (img : Image) (S : ℕ) (mr : Bool)
    (cs : List ℚ) (f : ℚ) {ci : ℕ} (hci : ci < n)
    (acc : List ℤ × List ℚ × List ℕ) (h : pcEntriesValid n acc.1) :
    pcEntriesValid n (assignCentrePass img S mr cs f ci acc).1 := by
  unfold assignCentrePass
  refine foldl_preserve (P := fun a : List ℤ × List ℚ × List ℕ => pcEntriesValid n a.1)
    ?_ _ _ h
  intro a1 y h1
  refine foldl_preserve (P := fun a : List ℤ × List ℚ × List ℕ => pcEntriesValid n a.1)
    ?_ _ _ h1
  intro a2 x h2
  exact assignVisit_pcValid img mr cs f hci x y a2 h2

theorem rowFirstHit_valid {n : ℕ} {img : Image} {npc : List ℤ}
    (h : pcEntriesValid n npc) {y x : ℤ} {a : ℤ}
    (hh : rowFirstHit img npc y x = some a) : 0 ≤ a ∧ a < (n : ℤ) := by
  unfold rowFirstHit at hh
  have hmem := List.mem_of_mem_head? hh
  rw [List.mem_filterMap] at hmem
  obtain ⟨t, -, ht⟩ := hmem
  by_cases hc : inBoundsI img t y ∧ npc.getD (idxI img t y) (-1) ≠ -1
  · rw [if_pos hc] at ht
    obtain ⟨-, hne⟩ := hc
    cases ht
    rcases pcEntriesValid_getD h (idxI img t y) with h1 | h2
    · exact absurd h1 hne
    · exact h2
  · rw [if_neg hc] at ht
    cases ht

theorem findAdjacent_valid {n : ℕ} (img : Image) {npc : List ℤ}
    (h : pcEntriesValid n npc) (x y : ℤ) {adj : ℤ}
    (hadj : 0 ≤ adj ∧ adj < (n : ℤ)) :
    0 ≤ findAdjacent img npc x y adj ∧ findAdjacent img npc x y adj < (n : ℤ) := by
  unfold findAdjacent
  refine foldl_preserve (P := fun a : ℤ => 0 ≤ a ∧ a < (n : ℤ)) ?_ _ _ hadj
  intro a ty ha
  rcases hh : rowFirstHit img npc ty x with _ | v
  · simpa [hh] using ha
  · simpa [hh] using rowFirstHit_valid h hh

theorem growNeighbors_pcValid {n : ℕ} {img : Image} {pc : List ℤ} {orig : ℤ}
    (horig : orig = -1 ∨ (0 ≤ orig ∧ orig < (n : ℤ))) (q : ℕ × ℕ)
    (acc : List (ℕ × ℕ) × List ℤ) (h : pcEntriesValid n acc.2) :
    pcEntriesValid n (growNeighbors img pc orig q acc).2 := by
  unfold growNeighbors
  refine foldl_preserve (P := fun a : List (ℕ × ℕ) × List ℤ => pcEntriesValid n a.2)
    ?_ _ _ h
  intro a r ha
  by_cases hc : inBoundsI img r.1 r.2 ∧ a.2.getD (idxI img r.1 r.2) (-1) = -1 ∧
      pc.getD (idxI img r.1 r.2) (-1) = orig
  · rw [if_pos hc]
    exact pcEntriesValid_set ha horig
  · rw [if_neg hc]
    exact ha

theorem growLoop_pcValid {n : ℕ} (img : Image) (pc : List ℤ) {orig : ℤ}
    (horig : orig = -1 ∨ (0 ≤ orig ∧ orig < (n : ℤ))) :
    ∀ (fuel c : ℕ) (seg : List (ℕ × ℕ)) (npc : List ℤ),
      pcEntriesValid n npc →
      pcEntriesValid n (growLoop img pc orig fuel c seg npc).2 := by
  intro fuel
  induction fuel with
  | zero => intro c seg npc h; exact h
  | succ f ih =>
    intro c seg npc h
    rw [growLoop]
    by_cases hc : c < seg.length
    · rw [dif_pos hc]
      exact ih _ _ _ (growNeighbors_pcValid horig _ _ h)
    · rw [dif_neg hc]
      exact h

theorem processPixel_valid {n : ℕ} (img : Image) (pc : List ℤ) (thr : ℕ)
    (hpc : pcEntriesValid n pc) (acc : List ℤ × ℤ × Bool) (q : ℕ × ℕ)
    (h : pcEntriesValid n acc.1 ∧ 0 ≤ acc.2.1 ∧ acc.2.1 < (n : ℤ)) :
    pcEntriesValid n (processPixel img pc thr acc q).1 ∧
      0 ≤ (processPixel img pc thr acc q).2.1 ∧
      (processPixel img pc thr acc q).2.1 < (n : ℤ) := by
  unfold processPixel
  by_cases hstart : acc.1.getD (q.2 * img.cols + q.1) (-1) = -1
  · rw [if_pos hstart]
    dsimp only
    have horig := pcEntriesValid_getD hpc (q.2 * img.cols + q.1)
    have hnpc1 : pcEntriesValid n
        (acc.1.set (q.2 * img.cols + q.1) (pc.getD (q.2 * img.cols + q.1) (-1))) :=
      pcEntriesValid_set h.1 horig
    have hadj1 := findAdjacent_valid img hnpc1 (q.1 : ℤ) (q.2 : ℤ) h.2
    have hgrow := growLoop_pcValid img pc horig (img.rows * img.cols + 1) 0 [q] _ hnpc1
    by_cases hm : (growLoop img pc (pc.getD (q.2 * img.cols + q.1) (-1))
        (img.rows * img.cols + 1) 0 [q]
        (acc.1.set (q.2 * img.cols + q.1) (pc.getD (q.2 * img.cols + q.1) (-1)))).1.length ≤ thr
    · rw [if_pos hm]
      refine ⟨?_, hadj1⟩
      refine foldl_preserve (P := fun l : List ℤ => pcEntriesValid n l) ?_ _ _ hgrow
      intro l r hl
      exact pcEntriesValid_set hl (Or.inr hadj1)
    · rw [if_neg hm]
      exact ⟨hgrow, hadj1⟩
  · rw [if_neg hstart]
    exact h

theorem enforceRelabel_valid {n : ℕ} {img : Image} {pc : List ℤ} {pixels : ℕ}
    (hn : 0 < n) (hpc : pcEntriesValid n pc) :
    pcEntriesValid n (enforceRelabel img pc pixels n).1 := by
  unfold enforceRelabel
  have h := foldl_preserve
    (P := fun a : List ℤ × ℤ × Bool =>
      pcEntriesValid n a.1 ∧ 0 ≤ a.2.1 ∧ a.2.1 < (n : ℤ))
    (fun a q ha => processPixel_valid img pc (clustersAverageSize pixels n / 4) hpc a q ha)
    (pixelScan img)
    (List.replicate pixels (-1), 0, false)
    ⟨fun v hv => Or.inl (List.eq_of_mem_replicate hv), le_refl 0,
      by show (0 : ℤ) < (n : ℤ); exact_mod_cast hn⟩
  exact h.1

/-- C2.  Every Assignment Map entry is either the unassigned sentinel `-1`
or a valid cluster index in `[0, clustersNumber)`, at every point of the
pipeline: a full reseed writes `-1` everywhere; an Assignment Step over the
current centres writes only indices below the cluster count; Orphan Recovery
leaves the map untouched while the cluster count only grows, so validity is
preserved; and the relabeling pass of `enforceConnectivity` writes only
copies of existing valid entries or the fallback adjacent cluster, which is
itself always a valid index once at least one cluster exists. -/
theorem C2_assignment_map_range :
    (∀ (img : Image) (S W : ℕ) (thr : ℚ) (videoMode : VideoElaborationMode)
        (kr : ℕ) (noise : ℕ → ℚ) (cf : Bool) (st : SLICData),
        reseedCondition videoMode kr cf st = true →
        ∀ v ∈ (initSLICData img S W thr videoMode kr noise cf st).pixelCluster,
          v = -1) ∧
    (∀ (img : Image) (S : ℕ) (mr : Bool) (cs : List ℚ) (f : ℚ) (n : ℕ)
        (pc : List ℤ) (dist : List ℚ) (reached : List ℕ),
        pcEntriesValid n pc →
        pcEntriesValid n (assignmentOrder img S mr cs f (List.range n) pc dist reached).1) ∧
    (∀ (blobs : List (ℚ × ℚ × ℚ)) (st : SLICData),
        pcEntriesValid st.clustersNumber st.pixelCluster →
        pcEntriesValid (spawnCentres blobs st).clustersNumber
          (spawnCentres blobs st).pixelCluster) ∧
    (∀ (img : Image) (st : SLICData), 0 < st.clustersNumber →
        pcEntriesValid st.clustersNumber st.pixelCluster →
        pcEntriesValid st.clustersNumber (enforceConnectivity img st).pixelCluster) := by
  refine ⟨?_, ?_, ?_, ?_⟩
  · intro img S W thr videoMode kr noise cf st h
    unfold initSLICData
    by_cases hb : (videoMode == ADD_SUPERPIXELS || videoMode == ADD_SUPERPIXELS_NOISE) = true <;>
      simp [h, hb, List.mem_replicate]
  · intro img S mr cs f n pc dist reached h
    unfold assignmentOrder
    refine foldl_preserve_mem (P := fun a : List ℤ × List ℚ × List ℕ => pcEntriesValid n a.1)
      (List.range n) ?_ _ h
    intro ci hci a ha
    exact assignCentrePass_pcValid img S mr cs f (List.mem_range.mp hci) a ha
  · intro blobs st h
    rw [spawnCentres_pixelCluster]
    exact pcEntriesValid_mono (spawnCentres_clustersNumber_ge blobs st) h
  · intro img st hn h
    unfold enforceConnectivity
    dsimp only
    have hr : pcEntriesValid st.clustersNumber
        (enforceRelabel img st.pixelCluster st.pixelsNumber st.clustersNumber).1 :=
      enforceRelabel_valid hn h
    refine foldl_preserve (P := fun l : List ℤ => pcEntriesValid st.clustersNumber l)
      ?_ _ _ h
    intro l m hl
    exact pcEntriesValid_set hl (pcEntriesValid_getD hr m)

/-- Closed witness for C2: validity after a full relabeling pass on the
8×3 state, and after a two-centre assignment step on the 3×1 image. -/
theorem C2_assignment_map_range_witness :
    pcEntriesValid mergeState.clustersNumber
      (enforceConnectivity mergeImage mergeState).pixelCluster ∧
    pcEntriesValid 2 (assignmentOrder raceImage 1 false raceCentres 1
      (List.range 2) [-1, -1, -1] [dblMax, dblMax, dblMax] []).1 :=
  ⟨C2_assignment_map_range.2.2.2 mergeImage mergeState (by decide) (by decide),
   C2_assignment_map_range.2.1 raceImage 1 false raceCentres 1 2
     [-1, -1, -1] [dblMax, dblMax, dblMax] [] (by decide)⟩

theorem getD_set_cases {l : List ℤ} {i j : ℕ} {v : ℤ} :
    (l.set i v).getD j (-1) = l.getD j (-1) ∨
      (i = j ∧ (l.set i v).getD j (-1) = v) := by
  rcases eq_or_ne i j with rfl | hne
  · by_cases hl : i < l.length
    · exact Or.inr ⟨rfl, getD_set_self hl⟩
    · left
      rw [List.set_eq_of_length_le (Nat.le_of_not_lt hl)]
  · exact Or.inl (getD_set_ne hne)

/-- `b` refines `a` toward `pc`: every entry of `b` is the corresponding
entry of `a` or the corresponding entry of `pc`.  This is the write
discipline of the non-merging parts of the relabeling pass, all of whose
writes copy entries of `pixelCluster`. -/
def npcApprox (pc a b : List ℤ) : Prop :=
  ∀ j : ℕ, b.getD j (-1) = a.getD j (-1) ∨ b.getD j (-1) = pc.getD j (-1)

theorem npcApprox_refl (pc a : List ℤ) : npcApprox pc a a := fun _ => Or.inl rfl

theorem npcApprox_trans {pc a b c : List ℤ} (h1 : npcApprox pc a b)
    (h2 : npcApprox pc b c) : npcApprox pc a c := by
  intro j
  rcases h2 j with h | h
  · rw [h]
    exact h1 j
  · exact Or.inr h

theorem growNeighbors_approx (img : Image) (pc : List ℤ) (orig : ℤ)
    (q : ℕ × ℕ) (acc : List (ℕ × ℕ) × List ℤ) :
    npcApprox pc acc.2 (growNeighbors img pc orig q acc).2 := by
  unfold growNeighbors
  refine foldl_preserve
    (P := fun a : List (ℕ × ℕ) × List ℤ => npcApprox pc acc.2 a.2) ?_ _ _
    (npcApprox_refl pc acc.2)
  intro a r ha
  by_cases hc : inBoundsI img r.1 r.2 ∧ a.2.getD (idxI img r.1 r.2) (-1) = -1 ∧
      pc.getD (idxI img r.1 r.2) (-1) = orig
  · rw [if_pos hc]
    intro j
    rcases getD_set_cases (l := a.2) (i := idxI img r.1 r.2) (v := orig) (j := j)
      with h | ⟨heq, hv⟩
    · rw [h]
      exact ha j
    · right
      rw [hv, ← hc.2.2, heq]
  · rw [if_neg hc]
    exact ha

theorem growLoop_approx (img : Image) (pc : List ℤ) (orig : ℤ) :
    ∀ (fuel c : ℕ) (seg : List (ℕ × ℕ)) (npc : List ℤ),
      npcApprox pc npc (growLoop img pc orig fuel c seg npc).2 := by
  intro fuel
  induction fuel with
  | zero => intro c seg npc; exact npcApprox_refl pc npc
  | succ f ih =>
    intro c seg npc
    rw [growLoop]
    by_cases hc : c < seg.length
    · rw [dif_pos hc]
      exact npcApprox_trans (growNeighbors_approx img pc orig _ _) (ih _ _ _)
    · rw [dif_neg hc]
      exact npcApprox_refl pc npc

theorem growNeighbors_length (img : Image) (pc : List ℤ) (orig : ℤ)
    (q : ℕ × ℕ) (acc : List (ℕ × ℕ) × List ℤ) :
    (growNeighbors img pc orig q acc).2.length = acc.2.length := by
  unfold growNeighbors
  refine foldl_preserve
    (P := fun a : List (ℕ × ℕ) × List ℤ => a.2.length = acc.2.length) ?_ _ _ rfl
  intro a r ha
  by_cases hc : inBoundsI img r.1 r.2 ∧ a.2.getD (idxI img r.1 r.2) (-1) = -1 ∧
      pc.getD (idxI img r.1 r.2) (-1) = orig
  · rw [if_pos hc]
    dsimp only
    rw [List.length_set]
    exact ha
  · rw [if_neg hc]
    exact ha

theorem growLoop_length (img : Image) (pc : List ℤ) (orig : ℤ) :
    ∀ (fuel c : ℕ) (seg : List (ℕ × ℕ)) (npc : List ℤ),
      (growLoop img pc orig fuel c seg npc).2.length = npc.length := by
  intro fuel
  induction fuel with
  | zero => intro c seg npc; rfl
  | succ f ih =>
    intro c seg npc
    rw [growLoop]
    by_cases hc : c < seg.length
    · rw [dif_pos hc]
      rw [ih]
      exact growNeighbors_length img pc orig _ _
    · rw [dif_neg hc]

theorem processPixel_length (img : Image) (pc : List ℤ) (thr : ℕ)
    (acc : List ℤ × ℤ × Bool) (q : ℕ × ℕ) :
    (processPixel img pc thr acc q).1.length = acc.1.length := by
  unfold processPixel
  by_cases hstart : acc.1.getD (q.2 * img.cols + q.1) (-1) = -1
  · rw [if_pos hstart]
    dsimp only
    have hg : (growLoop img pc (pc.getD (q.2 * img.cols + q.1) (-1))
        (img.rows * img.cols + 1) 0 [q]
        (acc.1.set (q.2 * img.cols + q.1)
          (pc.getD (q.2 * img.cols + q.1) (-1)))).2.length = acc.1.length := by
      rw [growLoop_length, List.length_set]
    by_cases hm : (growLoop img pc (pc.getD (q.2 * img.cols + q.1) (-1))
        (img.rows * img.cols + 1) 0 [q]
        (acc.1.set (q.2 * img.cols + q.1)
          (pc.getD (q.2 * img.cols + q.1) (-1)))).1.length ≤ thr
    · rw [if_pos hm]
      dsimp only
      refine foldl_preserve (P := fun l : List ℤ => l.length = acc.1.length) ?_ _ _ hg
      intro l r hl
      rw [List.length_set]
      exact hl
    · rw [if_neg hm]
      exact hg
  · rw [if_neg hstart]

theorem processPixel_merged_mono (img : Image) (pc : List ℤ) (thr : ℕ)
    (acc : List ℤ × ℤ × Bool) (q : ℕ × ℕ) (h : acc.2.2 = true) :
    (processPixel img pc thr acc q).2.2 = true := by
  unfold processPixel
  by_cases hstart : acc.1.getD (q.2 * img.cols + q.1) (-1) = -1
  · rw [if_pos hstart]
    dsimp only
    by_cases hm : (growLoop img pc (pc.getD (q.2 * img.cols + q.1) (-1))
        (img.rows * img.cols + 1) 0 [q]
        (acc.1.set (q.2 * img.cols + q.1)
          (pc.getD (q.2 * img.cols + q.1) (-1)))).1.length ≤ thr
    · rw [if_pos hm]
    · rw [if_neg hm]
      exact h
  · rw [if_neg hstart]
    exact h

theorem foldl_merged_mono (img : Image) (pc : List ℤ) (thr : ℕ) :
    ∀ (l : List (ℕ × ℕ)) (acc : List ℤ × ℤ × Bool), acc.2.2 = true →
      (l.foldl (processPixel img pc thr) acc).2.2 = true := by
  intro l
  induction l with
  | nil => intro acc h; exact h
  | cons a t ih =>
    intro acc h
    exact ih _ (processPixel_merged_mono img pc thr acc a h)

theorem processPixel_noMerge (img : Image) (pc : List ℤ) (thr : ℕ)
    (acc : List ℤ × ℤ × Bool) (q : ℕ × ℕ)
    (hm : (processPixel img pc thr acc q).2.2 = false) :
    npcApprox pc acc.1 (processPixel img pc thr acc q).1 ∧
    (acc.1.getD (q.2 * img.cols + q.1) (-1) ≠ -1 →
      (processPixel img pc thr acc q).1 = acc.1) ∧
    (acc.1.getD (q.2 * img.cols + q.1) (-1) = -1 →
      q.2 * img.cols + q.1 < acc.1.length →
      (processPixel img pc thr acc q).1.getD (q.2 * img.cols + q.1) (-1)
        = pc.getD (q.2 * img.cols + q.1) (-1)) := by
  by_cases hstart : acc.1.getD (q.2 * img.cols + q.1) (-1) = -1
  · have hstep : processPixel img pc thr acc q
        = ((growLoop img pc (pc.getD (q.2 * img.cols + q.1) (-1))
            (img.rows * img.cols + 1) 0 [q]
            (acc.1.set (q.2 * img.cols + q.1)
              (pc.getD (q.2 * img.cols + q.1) (-1)))).2,
          findAdjacent img
            (acc.1.set (q.2 * img.cols + q.1)
              (pc.getD (q.2 * img.cols + q.1) (-1)))
            (q.1 : ℤ) (q.2 : ℤ) acc.2.1,
          acc.2.2) := by
      unfold processPixel
      rw [if_pos hstart]
      dsimp only
      by_cases hmm : (growLoop img pc (pc.getD (q.2 * img.cols + q.1) (-1))
          (img.rows * img.cols + 1) 0 [q]
          (acc.1.set (q.2 * img.cols + q.1)
            (pc.getD (q.2 * img.cols + q.1) (-1)))).1.length ≤ thr
      · exfalso
        revert hm
        unfold processPixel
        rw [if_pos hstart]
        dsimp only
        rw [if_pos hmm]
        simp
      · rw [if_neg hmm]
    rw [hstep]
    have happrox1 : npcApprox pc acc.1
        (acc.1.set (q.2 * img.cols + q.1)
          (pc.getD (q.2 * img.cols + q.1) (-1))) := by
      intro j
      rcases getD_set_cases (l := acc.1) (i := q.2 * img.cols + q.1)
        (v := pc.getD (q.2 * img.cols + q.1) (-1)) (j := j) with h | ⟨heq, hv⟩
      · rw [h]
        exact Or.inl rfl
      · right
        rw [hv, heq]
    have happrox2 := growLoop_approx img pc (pc.getD (q.2 * img.cols + q.1) (-1))
      (img.rows * img.cols + 1) 0 [q]
      (acc.1.set (q.2 * img.cols + q.1) (pc.getD (q.2 * img.cols + q.1) (-1)))
    refine ⟨npcApprox_trans happrox1 happrox2, fun hne => absurd hstart hne, ?_⟩
    intro _ hlen
    rcases happrox2 (q.2 * img.cols + q.1) with h | h
    · rw [h, getD_set_self hlen]
    · exact h
  · have hstep : processPixel img pc thr acc q = acc := by
      unfold processPixel
      rw [if_neg hstart]
    rw [hstep]
    exact ⟨npcApprox_refl pc acc.1, fun _ => rfl, fun he => absurd he hstart⟩

theorem foldl_processPixel_noMerge (img : Image) (pc : List ℤ) (thr : ℕ) :
    ∀ (l : List (ℕ × ℕ)) (acc : List ℤ × ℤ × Bool),
      (∀ j : ℕ, acc.1.getD j (-1) = -1 ∨ acc.1.getD j (-1) = pc.getD j (-1)) →
      (l.foldl (processPixel img pc thr) acc).2.2 = false →
      npcApprox pc acc.1 (l.foldl (processPixel img pc thr) acc).1 ∧
      (∀ q ∈ l, q.2 * img.cols + q.1 < acc.1.length →
        (l.foldl (processPixel img pc thr) acc).1.getD (q.2 * img.cols + q.1) (-1)
          = pc.getD (q.2 * img.cols + q.1) (-1)) := by
  intro l
  induction l with
  | nil =>
    intro acc _ _
    exact ⟨npcApprox_refl pc acc.1, by simp⟩
  | cons q t ih =>
    intro acc hbase h
    have hm' : (processPixel img pc thr acc q).2.2 = false := by
      by_cases hb : (processPixel img pc thr acc q).2.2 = true
      · exfalso
        have := foldl_merged_mono img pc thr t (processPixel img pc thr acc q) hb
        rw [List.foldl_cons] at h
        rw [h] at this
        cases this
      · exact Bool.not_eq_true _ ▸ (by revert hb; cases (processPixel img pc thr acc q).2.2 <;> simp)
    obtain ⟨happrox1, hkeep, hatI⟩ := processPixel_noMerge img pc thr acc q hm'
    have hbase' : ∀ j : ℕ, (processPixel img pc thr acc q).1.getD j (-1) = -1 ∨
        (processPixel img pc thr acc q).1.getD j (-1) = pc.getD j (-1) := by
      intro j
      rcases happrox1 j with hj | hj
      · rw [hj]
        exact hbase j
      · exact Or.inr hj
    have hfold : (q :: t).foldl (processPixel img pc thr) acc
        = t.foldl (processPixel img pc thr) (processPixel img pc thr acc q) :=
      List.foldl_cons _ _
    rw [hfold] at h ⊢
    obtain ⟨happroxT, hperT⟩ := ih (processPixel img pc thr acc q) hbase' h
    have hplen := processPixel_length img pc thr acc q
    refine ⟨npcApprox_trans happrox1 happroxT, ?_⟩
    intro r hr hrlen
    rcases List.mem_cons.mp hr with rfl | hrt
    · by_cases hst : acc.1.getD (r.2 * img.cols + r.1) (-1) = -1
      · have hval := hatI hst hrlen
        rcases happroxT (r.2 * img.cols + r.1) with hT | hT
        · rw [hT, hval]
        · exact hT
      · have hval : (processPixel img pc thr acc r).1.getD (r.2 * img.cols + r.1) (-1)
            = pc.getD (r.2 * img.cols + r.1) (-1) := by
          rw [hkeep hst]
          rcases hbase (r.2 * img.cols + r.1) with hb | hb
          · exact absurd hb hst
          · exact hb
        rcases happroxT (r.2 * img.cols + r.1) with hT | hT
        · rw [hT, hval]
        · exact hT
    · exact hperT r hrt (by rw [hplen]; exact hrlen)

theorem pixelScan_covers (img : Image) (m : ℕ) (hm : m < img.rows * img.cols) :
    ∃ q ∈ pixelScan img, q.2 * img.cols + q.1 = m := by
  have hc : 0 < img.cols := by
    rcases Nat.eq_zero_or_pos img.cols with h0 | h
    · rw [h0, Nat.mul_zero] at hm
      omega
    · exact h
  refine ⟨(m % img.cols, m / img.cols), ?_, ?_⟩
  · unfold pixelScan
    rw [List.mem_flatMap]
    refine ⟨m / img.cols, List.mem_range.mpr ?_, List.mem_map.mpr
      ⟨m % img.cols, List.mem_range.mpr (Nat.mod_lt _ hc), rfl⟩⟩
    exact (Nat.div_lt_iff_lt_mul hc).mpr (by rw [Nat.mul_comm] at hm ⊢; exact hm)
  · dsimp only
    rw [Nat.mul_comm]
    exact Nat.div_add_mod m img.cols

theorem foldl_set_seq (g : ℕ → ℤ) :
    ∀ (k : ℕ) (base : List ℤ),
      ((List.range k).foldl (fun l m => l.set m (g m)) base).length = base.length ∧
      ∀ m : ℕ, m < k → m < base.length →
        ((List.range k).foldl (fun l m => l.set m (g m)) base).getD m (-1) = g m := by
  intro k
  induction k with
  | zero => intro base; exact ⟨rfl, by omega⟩
  | succ n ih =>
    intro base
    obtain ⟨ihl, ihv⟩ := ih base
    have hsucc : (List.range (n + 1)).foldl (fun l m => l.set m (g m)) base
        = ((List.range n).foldl (fun l m => l.set m (g m)) base).set n (g n) := by
      rw [List.range_succ, List.foldl_append]
      rfl
    constructor
    · rw [hsucc, List.length_set]
      exact ihl
    · intro m hm hmb
      rw [hsucc]
      rcases Nat.lt_or_ge m n with h | h
      · rw [getD_set_ne]
        · exact ihv m h hmb
        · omega
      · have hmn : m = n := by omega
        subst hmn
        rw [getD_set_self (by rw [ihl]; exact hmb)]

/-- C6 amended claim.  `enforceConnectivity` is not idempotent in general:
the counterexample shows a second run can relabel a small component that the
first run's own merging disconnected from its fallback cluster.  What does
hold is the identity property on merge-free runs: whenever the relabeling
pass fires no merge (no grown component had pixel count at or below the
threshold), every write of the pass copies an entry of the input Assignment
Map, so `enforceConnectivity` returns the Assignment Map unchanged — in
particular a second run on such output is a no-op on the map. -/
theorem C6_no_merge_identity (img : Image) (st : SLICData)
    (hdim : st.pixelsNumber = img.rows * img.cols)
    (hlen : st.pixelCluster.length = st.pixelsNumber)
    (hnm : (enforceRelabel img st.pixelCluster st.pixelsNumber st.clustersNumber).2.2 = false) :
    (enforceConnectivity img st).pixelCluster = st.pixelCluster := by
  have hbase : ∀ j : ℕ,
      (List.replicate st.pixelsNumber (-1) : List ℤ).getD j (-1) = -1 ∨
      (List.replicate st.pixelsNumber (-1) : List ℤ).getD j (-1)
        = st.pixelCluster.getD j (-1) := by
    intro j
    left
    rcases Nat.lt_or_ge j st.pixelsNumber with hj | hj
    · rw [List.getD_eq_getElem?_getD, List.getElem?_eq_getElem
        (by rw [List.length_replicate]; exact hj)]
      simp
    · rw [List.getD_eq_getElem?_getD, List.getElem?_eq_none
        (by rw [List.length_replicate]; exact hj)]
      rfl
  have hnm' : ((pixelScan img).foldl
      (processPixel img st.pixelCluster
        (clustersAverageSize st.pixelsNumber st.clustersNumber / 4))
      (List.replicate st.pixelsNumber (-1), 0, false)).2.2 = false := hnm
  obtain ⟨-, hper⟩ := foldl_processPixel_noMerge img st.pixelCluster
    (clustersAverageSize st.pixelsNumber st.clustersNumber / 4) (pixelScan img)
    (List.replicate st.pixelsNumber (-1), 0, false) hbase hnm'
  have hrval : ∀ m : ℕ, m < st.pixelsNumber →
      (enforceRelabel img st.pixelCluster st.pixelsNumber st.clustersNumber).1.getD m (-1)
        = st.pixelCluster.getD m (-1) := by
    intro m hm
    obtain ⟨q, hqmem, hqidx⟩ := pixelScan_covers img m (by rw [← hdim]; exact hm)
    have := hper q hqmem (by rw [List.length_replicate, hqidx]; exact hm)
    rw [hqidx] at this
    exact this
  obtain ⟨hclen, hcval⟩ := foldl_set_seq
    (fun m => (enforceRelabel img st.pixelCluster st.pixelsNumber
      st.clustersNumber).1.getD m (-1)) st.pixelsNumber st.pixelCluster
  have hgoal : (List.range st.pixelsNumber).foldl
      (fun l m => l.set m
        ((enforceRelabel img st.pixelCluster st.pixelsNumber
          st.clustersNumber).1.getD m (-1))) st.pixelCluster = st.pixelCluster := by
    apply List.ext_getElem
    · exact hclen
    · intro i h1 h2
      have hip : i < st.pixelsNumber := by rw [← hlen]; exact h2
      have hv := hcval i hip h2
      have e1 : ((List.range st.pixelsNumber).foldl
          (fun l m => l.set m
            ((enforceRelabel img st.pixelCluster st.pixelsNumber
              st.clustersNumber).1.getD m (-1))) st.pixelCluster).getD i (-1)
          = ((List.range st.pixelsNumber).foldl
          (fun l m => l.set m
            ((enforceRelabel img st.pixelCluster st.pixelsNumber
              st.clustersNumber).1.getD m (-1))) st.pixelCluster)[i] := by
        rw [List.getD_eq_getElem?_getD, List.getElem?_eq_getElem h1]
        rfl
      have e2 : st.pixelCluster.getD i (-1) = st.pixelCluster[i] := by
        rw [List.getD_eq_getElem?_getD, List.getElem?_eq_getElem h2]
        rfl
      rw [← e1, ← e2, hv, hrval i hip]
  exact hgoal

/-- Closed witness for the amended C6: on a 2×1 single-cluster map the
relabeling pass fires no merge, and `enforceConnectivity` returns the
Assignment Map unchanged. -/
theorem C6_no_merge_identity_witness :
    (enforceConnectivity (Image.mk 1 2 (fun _ _ => ⟨0, 0, 0⟩))
      { pixelsNumber := 2, clustersNumber := 1, samplingStep := 1,
        spatialDistanceWeight := 1, distanceFactor := 1, errorThreshold := 0,
        totalResidualError := 0, framesNumber := 0, iterationIndex := 0,
        pixelCluster := [0, 0],
        distanceFromClusterCentre := [0, 0],
        pixelReachedByClusters := [0, 0],
        clusterCentres := [0, 0, 0, 0, 0],
        previousClusterCentres := [0, 0, 0, 0, 0],
        pixelsOfSameCluster := [0], residualError := [0] }).pixelCluster
      = [0, 0] :=
  C6_no_merge_identity (Image.mk 1 2 (fun _ _ => ⟨0, 0, 0⟩))
    { pixelsNumber := 2, clustersNumber := 1, samplingStep := 1,
      spatialDistanceWeight := 1, distanceFactor := 1, errorThreshold := 0,
      totalResidualError := 0, framesNumber := 0, iterationIndex := 0,
      pixelCluster := [0, 0],
      distanceFromClusterCentre := [0, 0],
      pixelReachedByClusters := [0, 0],
      clusterCentres := [0, 0, 0, 0, 0],
      previousClusterCentres := [0, 0, 0, 0, 0],
      pixelsOfSameCluster := [0], residualError := [0] }
    (by decide) (by decide) (by decide)

end VideoSLIC
